import Mathlib

set_option linter.unusedSectionVars false
set_option maxRecDepth 100000

set_option allowUnsafeReducibility true
attribute [semireducible] Rat.add Rat.mul Rat.sub Rat.neg Rat.div Rat.inv Rat.blt

/-!
Verification of the PSD statistics pipeline in `PSD_deploy.py`.

The script computes, per channel bin, a probability density over
(frequency, power) from periodogram output (`ppsd`), and weighted
mean/variance statistics per frequency bin (`psd_stats`).  It also extracts
instrument metadata (`extract_metadata`) and assembles per-file arrays into
one channel-by-time matrix (module-level code around `np.concatenate`).

Numbers are modelled by `F K`: either a finite value of a linear ordered
field `K`, a positive or negative infinity, or `nan`, mirroring IEEE float
behaviour for the operations the script uses (`numpy` runs with
`np.seterr(divide='ignore', invalid='ignore')`, so `log10(0) = -inf` and
`0/0 = nan` are silent values, not exceptions).  The transcendental
functions `np.log10` and `10 ** x` on finite positive arguments are
abstracted by parameters `lg ex : K → K`; theorems assume exactly the
properties of those functions they need (monotonicity, inversion on
positives), and the special-value behaviour (`log10` of `0`, of negatives,
of `±inf`, of `nan`) is modelled explicitly in `flog10` / `fexp10`.

Calls into `h5py`, `scipy.signal.detrend` and `scipy.signal.periodogram`
are external collaborators and appear as parameters (`dt`, `pg`) or as a
record of the fields the script reads (`H5File`).
-/

/-- A floating-point value: finite `K`, `+inf`, `-inf` or `nan`. -/
inductive F (K : Type) where
  | fin : K → F K
  | pinf : F K
  | ninf : F K
  | nan : F K
deriving DecidableEq, Repr

namespace F

variable {K : Type} [LinearOrderedField K]

/-- IEEE-style addition. -/
def fadd : F K → F K → F K
  | nan, _ => nan
  | _, nan => nan
  | pinf, ninf => nan
  | ninf, pinf => nan
  | pinf, _ => pinf
  | _, pinf => pinf
  | ninf, _ => ninf
  | _, ninf => ninf
  | fin a, fin b => fin (a + b)

/-- IEEE-style negation. -/
def fneg : F K → F K
  | nan => nan
  | pinf => ninf
  | ninf => pinf
  | fin a => fin (-a)

/-- IEEE-style subtraction. -/
def fsub (a b : F K) : F K := fadd a (fneg b)

/-- IEEE-style multiplication (`0 * inf = nan`). -/
def fmul : F K → F K → F K
  | nan, _ => nan
  | _, nan => nan
  | fin a, fin b => fin (a * b)
  | fin a, pinf => if a = 0 then nan else if 0 < a then pinf else ninf
  | fin a, ninf => if a = 0 then nan else if 0 < a then ninf else pinf
  | pinf, fin b => if b = 0 then nan else if 0 < b then pinf else ninf
  | ninf, fin b => if b = 0 then nan else if 0 < b then ninf else pinf
  | pinf, pinf => pinf
  | pinf, ninf => ninf
  | ninf, pinf => ninf
  | ninf, ninf => pinf

/-- IEEE-style division with numpy's silenced warnings: `0/0 = nan`,
`x/0 = ±inf` for `x ≠ 0`, `x/±inf = 0`, `±inf/±inf = nan`. -/
def fdiv : F K → F K → F K
  | nan, _ => nan
  | _, nan => nan
  | fin a, fin b =>
      if b = 0 then (if a = 0 then nan else if 0 < a then pinf else ninf)
      else fin (a / b)
  | fin _, pinf => fin 0
  | fin _, ninf => fin 0
  | pinf, fin b => if 0 ≤ b then pinf else ninf
  | ninf, fin b => if 0 ≤ b then ninf else pinf
  | pinf, pinf => nan
  | pinf, ninf => nan
  | ninf, pinf => nan
  | ninf, ninf => nan

/-- IEEE-style `≤` as a boolean: any comparison with `nan` is false. -/
def fle : F K → F K → Bool
  | nan, _ => false
  | _, nan => false
  | ninf, _ => true
  | _, pinf => true
  | pinf, _ => false
  | fin _, ninf => false
  | fin a, fin b => decide (a ≤ b)

/-- IEEE-style `<` as a boolean: any comparison with `nan` is false. -/
def flt : F K → F K → Bool
  | nan, _ => false
  | _, nan => false
  | ninf, ninf => false
  | ninf, _ => true
  | pinf, _ => false
  | _, pinf => true
  | fin _, ninf => false
  | fin a, fin b => decide (a < b)

/-- `np.log10` on special values; the value on finite positive arguments is
the abstract parameter `lg`.  `log10 0 = -inf`, `log10 x = nan` for `x < 0`
(both silenced by `np.seterr`). -/
def flog10 (lg : K → K) : F K → F K
  | nan => nan
  | pinf => pinf
  | ninf => nan
  | fin a => if 0 < a then fin (lg a) else if a = 0 then ninf else nan

/-- `10 ** x` on special values; the value on finite arguments is the
abstract parameter `ex`.  `10 ** (-inf) = 0`. -/
def fexp10 (ex : K → K) : F K → F K
  | nan => nan
  | pinf => pinf
  | ninf => fin 0
  | fin a => fin (ex a)

/-- `nan` test. -/
def isNan : F K → Bool
  | nan => true
  | _ => false

end F

section NumpyModel

variable {K : Type} [LinearOrderedField K]

open F

/-- `np.sum` / the sum hidden inside `np.mean` and `np.average`:
an ordinary left fold with IEEE addition (a `nan` term poisons the sum). -/
def fsum (l : List (F K)) : F K := l.foldl fadd (F.fin 0)

/-- `np.nansum`: `nan` terms are treated as zero. -/
def fnansum (l : List (F K)) : F K :=
  (l.map (fun v => if v.isNan then F.fin 0 else v)).foldl fadd (F.fin 0)

/-- Binary minimum on non-`nan` values. -/
def fminb (a b : F K) : F K := if fle b a then b else a

/-- Binary maximum on non-`nan` values. -/
def fmaxb (a b : F K) : F K := if fle a b then b else a

/-- `np.nanmin`: minimum ignoring `nan` entries; all-`nan` input gives
`nan` (numpy emits a `RuntimeWarning`, not an exception). -/
def fnanmin (l : List (F K)) : F K :=
  match l.filter (fun v => !v.isNan) with
  | [] => F.nan
  | x :: xs => xs.foldl fminb x

/-- `np.nanmax`: maximum ignoring `nan` entries. -/
def fnanmax (l : List (F K)) : F K :=
  match l.filter (fun v => !v.isNan) with
  | [] => F.nan
  | x :: xs => xs.foldl fmaxb x

/-- The `i`-th element of `np.linspace(a, b, n)`: `a + i * (b - a) / (n - 1)`,
except that numpy overwrites the final element with `b` exactly
(`if endpoint and num > 1: y[-1] = stop`). -/
def linElem (a b : F K) (n i : ℕ) : F K :=
  if 1 < n ∧ i = n - 1 then b
  else fadd (fdiv (fmul (F.fin (i : K)) (fsub b a)) (F.fin ((n : K) - 1))) a

/-- `np.linspace(a, b, n)` (endpoint inclusive). -/
def flinspace (a b : F K) (n : ℕ) : List (F K) :=
  (List.range n).map (linElem a b n)

/-- `np.logspace(a, b, n)` = `10 ** np.linspace(a, b, n)` elementwise. -/
def flogspace (ex : K → K) (a b : F K) (n : ℕ) : List (F K) :=
  (flinspace a b n).map (fexp10 ex)

/-- The bin index of a sample for `np.histogram` edge semantics over sorted
edges: half-open bins `[e_i, e_{i+1})`, with the last bin closed on the
right.  `nan` samples and out-of-range samples get no index. -/
def binIndexAux (lo : F K) (rest : List (F K)) (x : F K) (i : ℕ) : Option ℕ :=
  match rest with
  | [] => none
  | [hi] => if fle lo x && fle x hi then some i else none
  | hi :: hi' :: rest' =>
      if !fle lo x then none
      else if flt x hi then some i
      else binIndexAux hi (hi' :: rest') x (i + 1)

/-- Bin index of `x` within `edges`, numpy `searchsorted` style. -/
def binIndex (edges : List (F K)) (x : F K) : Option ℕ :=
  match edges with
  | [] => none
  | e :: rest => binIndexAux e rest x 0

/-- The 2-D count grid of `np.histogram2d`: each sample is located in an
(x-bin, y-bin) cell (or dropped), then cells are counted. -/
def histCounts (xedges yedges : List (F K)) (samples : List (F K × F K)) :
    List (List ℕ) :=
  let idx := samples.filterMap (fun s =>
    (binIndex xedges s.1).bind (fun i =>
      (binIndex yedges s.2).map (fun j => (i, j))))
  (List.range (xedges.length - 1)).map (fun i =>
    (List.range (yedges.length - 1)).map (fun j => idx.count (i, j)))

/-- numpy's monotonicity test on explicit bin edges:
`np.any(edges[:-1] > edges[1:])` (note: `nan` compares false, and equal
adjacent edges pass). -/
def binsDecrease (edges : List (F K)) : Bool :=
  (edges.zip edges.tail).any (fun p => flt p.2 p.1)

/-- `np.histogram2d(x, y, bins=(xedges, yedges))`: raises `ValueError` when
either edge array strictly decreases somewhere, otherwise returns the count
grid together with both edge arrays. -/
def histogram2d (xs ys : List (F K)) (xedges yedges : List (F K)) :
    Except String (List (List ℕ) × List (F K) × List (F K)) :=
  if binsDecrease xedges || binsDecrease yedges then
    Except.error "ValueError: bins must be monotonically increasing"
  else
    Except.ok (histCounts xedges yedges (xs.zip ys), xedges, yedges)

/-- Bin centers `(e[1:] + e[:-1]) / 2`. -/
def centers (edges : List (F K)) : List (F K) :=
  (edges.tail.zip edges).map (fun p => fdiv (fadd p.1 p.2) (F.fin 2))

/-- Row normalisation `H / np.nansum(H, axis=1, keepdims=True)`:
every entry of a row is divided by that row's `nansum` (an all-zero row
becomes `0/0 = nan` throughout). -/
def normalizeRow (row : List (F K)) : List (F K) :=
  row.map (fun v => fdiv v (fnansum row))

end NumpyModel

section Program

variable {K : Type} [LinearOrderedField K]

open F

/-- Result of `ppsd`: the normalised histogram `H` and the two bin-center
axes `xm` (frequency) and `ym` (power). -/
structure PpsdRes (K : Type) where
  H : List (List (F K))
  xm : List (F K)
  ym : List (F K)
deriving DecidableEq, Repr

/-- Line 96: `freq = np.tile(freq, (nx, 1)).flatten()` with
`nx = data.shape[0]`; the periodogram's frequency axis is replicated once
per channel (the channel count equals the number of rows of `spec`). -/
def ppsdFreqTiled (freq : List (F K)) (spec : List (List (F K))) : List (F K) :=
  (List.replicate spec.length freq).flatten

/-- The flattened (frequency, power) sample pairs passed to
`np.histogram2d` on line 105. -/
def ppsdSamples (freq : List (F K)) (spec : List (List (F K))) :
    List (F K × F K) :=
  (ppsdFreqTiled freq spec).zip spec.flatten

/-- Line 102: `xbins = np.logspace(np.log10(fmin), np.log10(fmax), 100)`. -/
def ppsdXbins (lg ex : K → K) (fmin fmax : F K) : List (F K) :=
  flogspace ex (flog10 lg fmin) (flog10 lg fmax) 100

/-- Line 103:
`ybins = np.logspace(np.log10(np.nanmin(spec)), np.log10(np.nanmax(spec)), 200)`. -/
def ppsdYbins (lg ex : K → K) (spec : List (List (F K))) : List (F K) :=
  flogspace ex (flog10 lg (fnanmin spec.flatten)) (flog10 lg (fnanmax spec.flatten)) 200

/-- The raw count grid produced on line 105 for the `ppsd` inputs. -/
def ppsdCounts (lg ex : K → K) (freq : List (F K)) (spec : List (List (F K)))
    (fmin fmax : F K) : List (List ℕ) :=
  histCounts (ppsdXbins lg ex fmin fmax) (ppsdYbins lg ex spec)
    (ppsdSamples freq spec)

/-- Lines 96-108 of `ppsd`: tile the frequency axis, build the log-spaced
bins, run `np.histogram2d`, row-normalise by `np.nansum` and return the
histogram with both bin-center axes.  `np.nanmin` of a zero-size array
raises `ValueError` (line 103); a decreasing edge array makes
`np.histogram2d` raise (line 105). -/
def pdf_builder (lg ex : K → K) (freq : List (F K)) (spec : List (List (F K)))
    (fmin fmax : F K) : Except String (PpsdRes K) :=
  if spec.flatten.isEmpty then
    Except.error "ValueError: zero-size array to reduction operation fmin which has no identity"
  else
    match histogram2d (ppsdFreqTiled freq spec) spec.flatten
        (ppsdXbins lg ex fmin fmax) (ppsdYbins lg ex spec) with
    | Except.error e => Except.error e
    | Except.ok (Hc, xe, ye) =>
        Except.ok ⟨Hc.map (fun crow => normalizeRow (crow.map (fun (c : ℕ) => F.fin (c : K)))),
          centers xe, centers ye⟩

/-- Line 88: `data -= np.mean(data, axis=1, keepdims=True)` — subtract each
row's mean from the row, writing in place. -/
def demean (data : List (List (F K))) : List (List (F K)) :=
  data.map (fun row =>
    row.map (fun v => fsub v (fdiv (fsum row) (F.fin (row.length : K)))))

/-- `ppsd(data, fs, fmin, fmax)` (lines 77-108).  `dt` stands for
`scipy.signal.detrend` and `pg` for `scipy.signal.periodogram` (returning
the frequency axis and the per-channel power rows); both are external
library collaborators.  The first component of the result is the buffer the
caller's array holds after the call: line 88 subtracts the row means in
place, while line 89 and the periodogram allocate fresh arrays, so the
caller's array is left demeaned. -/
def ppsd (lg ex : K → K) (dt : List (List (F K)) → List (List (F K)))
    (pg : List (List (F K)) → F K → List (F K) × List (List (F K)))
    (data : List (List (F K))) (fs fmin fmax : F K) :
    List (List (F K)) × Except String (PpsdRes K) :=
  let buf := demean data
  let fspec := pg (dt buf) fs
  (buf, pdf_builder lg ex fspec.1 fspec.2 fmin fmax)

/-- `np.average(a, weights=w)` for 1-D input: raises `TypeError` when the
shapes differ, raises `ZeroDivisionError` when the weights sum to zero
(note: a `nan` weight sum is *not* equal to zero, so it does not raise),
otherwise returns `sum(a * w) / sum(w)`. -/
def np_average (a w : List (F K)) : Except String (F K) :=
  if a.length ≠ w.length then
    Except.error "TypeError: Axis must be specified when shapes of a and weights differ."
  else if fsum w = F.fin 0 then
    Except.error "ZeroDivisionError: Weights sum to zero, can't be normalized"
  else
    Except.ok (fdiv (fsum (List.zipWith fmul a w)) (fsum w))

/-- `psd_stats(H, xm, ym)` (lines 110-118): take `log10` of the power
centers, then for each frequency index `ix < len(xm)` compute the
`H[ix, :]`-weighted average and the weighted average of the squared
deviations; return `(xm, 10 ** mean, variance)`.  An out-of-range row
access raises `IndexError`; `np.average` may raise as modelled above. -/
def psd_stats_step (H : List (List (F K))) (yl : List (F K)) (ix : ℕ) :
    Except String (F K × F K) :=
  match H[ix]? with
  | none => Except.error "IndexError: index out of bounds for axis 0"
  | some row => do
      let m ← np_average yl row
      let v ← np_average (yl.map (fun y => fmul (fsub y m) (fsub y m))) row
      pure (m, v)

def psd_stats (lg ex : K → K) (H : List (List (F K))) (xm ym : List (F K)) :
    Except String (List (F K) × List (F K) × List (F K)) := do
  let stats ← (List.range xm.length).mapM (psd_stats_step H (ym.map (flog10 lg)))
  pure (xm, (stats.map Prod.fst).map (fexp10 ex), stats.map Prod.snd)

/-- The fields of the `optodas`-format HDF5 file read on lines 49-57. -/
structure H5Optodas (K : Type) where
  gaugeLength : K
  time : K
  dt : K
  dx : K
  unit : String
  dim0size : ℕ
  dim1size : ℕ

/-- The fields of the `onyx`-format HDF5 file read on lines 59-67. -/
structure H5Onyx (K : Type) where
  gaugeLength : K
  rawDataTime : List K
  outputDataRate : K
  spatialSamplingInterval : K
  rawDataUnit : String
  numberOfLoci : ℕ

/-- An HDF5 file as far as `extract_metadata` is concerned: whichever field
layout the selected format reads. -/
structure H5File (K : Type) where
  optodas : H5Optodas K
  onyx : H5Onyx K

/-- The metadata tuple `(gl, t0, dt, fs, dx, un, ns, nx)`. -/
structure Meta (K : Type) where
  gl : K
  t0 : K
  dt : K
  fs : K
  dx : K
  un : String
  ns : ℕ
  nx : ℕ
deriving DecidableEq, Repr

/-- `extract_metadata(h5file, machine_name)` (lines 33-72): dispatch on the
format identifier; `optodas` reads the header group (with the `dx * 10`
correction), `onyx` reads the `Acquisition` attributes; any other name
raises `ValueError('Machine name not recognized')`. -/
def extract_metadata (h5file : H5File K) (machine_name : String := "optodas") :
    Except String (Meta K) :=
  if machine_name = "optodas" then
    Except.ok ⟨h5file.optodas.gaugeLength, h5file.optodas.time,
      h5file.optodas.dt, 1 / h5file.optodas.dt, h5file.optodas.dx * 10,
      h5file.optodas.unit, h5file.optodas.dim0size, h5file.optodas.dim1size⟩
  else if machine_name = "onyx" then
    Except.ok ⟨h5file.onyx.gaugeLength,
      h5file.onyx.rawDataTime.getD 0 0 / 1000000,
      1 / h5file.onyx.outputDataRate, h5file.onyx.outputDataRate,
      h5file.onyx.spatialSamplingInterval, h5file.onyx.rawDataUnit,
      h5file.onyx.rawDataTime.length, h5file.onyx.numberOfLoci⟩
  else
    Except.error "Machine name not recognized"

/-- `np.concatenate(blocks, axis=1)`: raises on an empty list or on
mismatched row counts, otherwise appends the blocks row by row along the
time axis. -/
def np_concatenate1 (blocks : List (List (List (F K)))) :
    Except String (List (List (F K))) :=
  match blocks with
  | [] => Except.error "ValueError: need at least one array to concatenate"
  | b :: bs =>
      if bs.all (fun x => x.length == b.length) then
        Except.ok ((List.range b.length).map (fun r =>
          ((b :: bs).map (fun bl => bl.getD r [])).flatten))
      else
        Except.error "ValueError: all the input array dimensions except for the concatenation axis must match exactly"

/-- The filename-sorted file list of lines 138-139:
`file_list = np.array(os.listdir(data_dir)); file_list = file_list[np.argsort(file_list)]`. -/
def sortedFiles (files : List String) : List String :=
  List.insertionSort (fun a b => a ≤ b) files

/-- Lines 138-152: sort the directory listing by filename, select
`num_file` files starting at `start_file`, read each one (`read` stands for
`read_decimate`, invoked through the order-preserving `pool.map`), and
concatenate the per-file arrays along the time axis. -/
def assemble (read : String → List (List (F K))) (files : List String)
    (start_file num_file : ℕ) : Except String (List (List (F K))) :=
  np_concatenate1 ((((sortedFiles files).drop start_file).take num_file).map read)

end Program

section SpecSide

variable {K : Type} [LinearOrderedField K]

/-- Spec formula (§4.3): the weighted average
`Σ_j w[j]·v[j] / Σ_j w[j]`, written from the spec's words for comparison
with the code's `np.average`. -/
def specWeightedAvg (w v : List K) : K :=
  (List.zipWith (· * ·) w v).sum / w.sum

/-- Spec formula (§4.3): `mean[i] = Σ_j H[i][j]·log10(ym)[j] / Σ_j H[i][j]`
with `ly = log10(ym)`. -/
def specMean (w ly : List K) : K := specWeightedAvg w ly

/-- Spec formula (§4.3):
`variance[i] = Σ_j H[i][j]·(log10(ym)[j] - mean[i])² / Σ_j H[i][j]`. -/
def specVar (w ly : List K) : K :=
  specWeightedAvg w (ly.map (fun y => (y - specMean w ly) ^ 2))

end SpecSide

/-- The value `np.average(log10(ym), weights=row)` returns inside the
`psd_stats` loop when it does not raise: `sum(log10(ym) * row) / sum(row)`. -/
def rowMean {K : Type} [LinearOrderedField K] (lg : K → K) (ym row : List (F K)) : F K :=
  F.fdiv (fsum (List.zipWith F.fmul (ym.map (F.flog10 lg)) row)) (fsum row)

/-- The value `np.average((log10(ym) - mean) ** 2, weights=row)` returns
inside the `psd_stats` loop when it does not raise. -/
def rowVar {K : Type} [LinearOrderedField K] (lg : K → K) (ym row : List (F K)) : F K :=
  F.fdiv (fsum (List.zipWith F.fmul ((ym.map (F.flog10 lg)).map (fun y =>
    F.fmul (F.fsub y (rowMean lg ym row)) (F.fsub y (rowMean lg ym row)))) row)) (fsum row)

deriving instance DecidableEq for Except

/-- `Except.isOk` spelled out, to state that a call does not raise. -/
def exceptOk {ε α : Type} : Except ε α → Bool
  | Except.ok _ => true
  | Except.error _ => false

section FloatLemmas

variable {K : Type} [LinearOrderedField K]

open F

@[simp] theorem fadd_fin_fin (a b : K) : fadd (F.fin a) (F.fin b) = F.fin (a + b) := rfl

@[simp] theorem fneg_fin (a : K) : fneg (F.fin a) = F.fin (-a) := rfl

@[simp] theorem fsub_fin_fin (a b : K) : fsub (F.fin a) (F.fin b) = F.fin (a - b) := by
  simp [fsub, sub_eq_add_neg]

@[simp] theorem fmul_fin_fin (a b : K) : fmul (F.fin a) (F.fin b) = F.fin (a * b) := rfl

theorem fdiv_fin_fin {b : K} (a : K) (h : b ≠ 0) :
    fdiv (F.fin a) (F.fin b) = F.fin (a / b) := by
  simp [fdiv, h]

@[simp] theorem fdiv_nan_right (x : F K) : fdiv x F.nan = F.nan := by cases x <;> rfl

@[simp] theorem fdiv_nan_left (x : F K) : fdiv F.nan x = F.nan := by cases x <;> rfl

@[simp] theorem fmul_nan_right (x : F K) : fmul x F.nan = F.nan := by cases x <;> rfl

@[simp] theorem fmul_nan_left (x : F K) : fmul F.nan x = F.nan := by cases x <;> rfl

@[simp] theorem fadd_nan_right (x : F K) : fadd x F.nan = F.nan := by cases x <;> rfl

@[simp] theorem fadd_nan_left (x : F K) : fadd F.nan x = F.nan := by cases x <;> rfl

@[simp] theorem fsub_nan_right (x : F K) : fsub x F.nan = F.nan := by cases x <;> rfl

@[simp] theorem fsub_nan_left (x : F K) : fsub F.nan x = F.nan := by cases x <;> rfl

@[simp] theorem flt_nan_left (x : F K) : flt F.nan x = false := by cases x <;> rfl

@[simp] theorem flt_nan_right (x : F K) : flt x F.nan = false := by cases x <;> rfl

@[simp] theorem fle_nan_left (x : F K) : fle F.nan x = false := by cases x <;> rfl

@[simp] theorem fle_nan_right (x : F K) : fle x F.nan = false := by cases x <;> rfl

@[simp] theorem flt_fin_fin (a b : K) : flt (F.fin a) (F.fin b) = decide (a < b) := rfl

@[simp] theorem fle_fin_fin (a b : K) : fle (F.fin a) (F.fin b) = decide (a ≤ b) := rfl

@[simp] theorem fexp10_fin (ex : K → K) (a : K) : fexp10 ex (F.fin a) = F.fin (ex a) := rfl

@[simp] theorem fexp10_nan (ex : K → K) : fexp10 ex F.nan = F.nan := rfl

@[simp] theorem fexp10_pinf (ex : K → K) : fexp10 ex F.pinf = F.pinf := rfl

@[simp] theorem fexp10_ninf (ex : K → K) : fexp10 ex F.ninf = F.fin 0 := rfl

theorem flog10_fin_pos (lg : K → K) {a : K} (h : 0 < a) :
    flog10 lg (F.fin a) = F.fin (lg a) := by
  simp [flog10, h]

@[simp] theorem flog10_fin_zero (lg : K → K) : flog10 lg (F.fin 0) = F.ninf := by
  simp [flog10]

@[simp] theorem flog10_nan (lg : K → K) : flog10 lg F.nan = F.nan := rfl

@[simp] theorem flog10_pinf (lg : K → K) : flog10 lg F.pinf = F.pinf := rfl

@[simp] theorem flog10_ninf (lg : K → K) : flog10 lg F.ninf = F.nan := rfl

@[simp] theorem isNan_fin (a : K) : (F.fin a).isNan = false := rfl

@[simp] theorem isNan_nan : (F.nan : F K).isNan = true := rfl

@[simp] theorem isNan_pinf : (F.pinf : F K).isNan = false := rfl

@[simp] theorem isNan_ninf : (F.ninf : F K).isNan = false := rfl

theorem foldl_fadd_map_fin (l : List K) (acc : K) :
    (l.map F.fin).foldl fadd (F.fin acc) = F.fin (acc + l.sum) := by
  induction l generalizing acc with
  | nil => simp
  | cons x xs ih => simp [ih, add_assoc]

theorem fsum_map_fin (l : List K) : fsum (l.map F.fin) = F.fin l.sum := by
  simpa using foldl_fadd_map_fin l 0

theorem fnansum_map_fin (l : List K) : fnansum (l.map F.fin) = F.fin l.sum := by
  have h : (l.map F.fin).map (fun v => if v.isNan then F.fin 0 else v) = l.map F.fin := by
    simp [List.map_map]
  simpa [fnansum, h] using foldl_fadd_map_fin l 0

theorem zipWith_fmul_map_fin (a b : List K) :
    List.zipWith fmul (a.map F.fin) (b.map F.fin) =
      (List.zipWith (· * ·) a b).map F.fin := by
  induction a generalizing b with
  | nil => simp
  | cons x xs ih =>
      cases b with
      | nil => simp
      | cons y ys => simp [ih]

end FloatLemmas

section ListLemmas

variable {α : Type}

theorem mem_zip_tail {l : List α} {p : α × α} (h : p ∈ l.zip l.tail) :
    ∃ i, l[i]? = some p.1 ∧ l[i + 1]? = some p.2 := by
  induction l with
  | nil => simp at h
  | cons x xs ih =>
      cases xs with
      | nil => simp at h
      | cons y ys =>
          simp only [List.tail_cons, List.zip_cons_cons, List.mem_cons] at h
          rcases h with h | h
          · exact ⟨0, by simp [h], by simp [h]⟩
          · obtain ⟨i, h1, h2⟩ := ih h
            exact ⟨i + 1, by simpa using h1, by simpa using h2⟩

theorem zip_tail_mem {l : List α} {i : ℕ} {a b : α}
    (h1 : l[i]? = some a) (h2 : l[i + 1]? = some b) : (a, b) ∈ l.zip l.tail := by
  induction l generalizing i with
  | nil => simp at h1
  | cons x xs ih =>
      cases i with
      | zero =>
          simp only [List.getElem?_cons_zero, Option.some.injEq] at h1
          cases xs with
          | nil => simp at h2
          | cons y ys =>
              simp only [List.getElem?_cons_succ, List.getElem?_cons_zero,
                Option.some.injEq] at h2
              subst h1; subst h2
              simp [List.zip_cons_cons]
      | succ i =>
          cases xs with
          | nil => simp at h2
          | cons y ys =>
              have h1' : (y :: ys)[i]? = some a := by simpa using h1
              have h2' : (y :: ys)[i + 1]? = some b := by simpa using h2
              have := ih h1' h2'
              simp only [List.tail_cons, List.zip_cons_cons, List.mem_cons]
              right
              simpa using this

end ListLemmas

section BinLemmas

variable {K : Type} [LinearOrderedField K]

open F

theorem binsDecrease_map_range_false {h : ℕ → F K} {n : ℕ}
    (hp : ∀ i, i + 1 < n → flt (h (i + 1)) (h i) = false) :
    binsDecrease ((List.range n).map h) = false := by
  rw [binsDecrease, List.any_eq_false]
  intro p hmem
  obtain ⟨i, h1, h2⟩ := mem_zip_tail hmem
  by_cases hi : i + 1 < n
  · have e1 : ((List.range n).map h)[i]? = some (h i) := by
      rw [List.getElem?_map, List.getElem?_range (by omega)]; rfl
    have e2 : ((List.range n).map h)[i + 1]? = some (h (i + 1)) := by
      rw [List.getElem?_map, List.getElem?_range hi]; rfl
    rw [e1] at h1; rw [e2] at h2
    have p1 : p.1 = h i := (Option.some.inj h1).symm
    have p2 : p.2 = h (i + 1) := (Option.some.inj h2).symm
    rw [p1, p2]
    simp [hp i hi]
  · have : ((List.range n).map h)[i + 1]? = none := by
      apply List.getElem?_eq_none
      simpa using by omega
    rw [this] at h2
    cases h2

theorem binsDecrease_true_of {l : List (F K)} {i : ℕ} {a b : F K}
    (h1 : l[i]? = some a) (h2 : l[i + 1]? = some b) (hlt : flt b a = true) :
    binsDecrease l = true :=
  List.any_eq_true.mpr ⟨(a, b), zip_tail_mem h1 h2, hlt⟩

theorem linElem_last (a b : F K) {n : ℕ} (h : 1 < n) :
    linElem a b n (n - 1) = b := by
  rw [linElem, if_pos ⟨h, rfl⟩]

theorem linElem_interior (a b : F K) {n i : ℕ} (hi : i < n - 1) :
    linElem a b n i =
      fadd (fdiv (fmul (F.fin (i : K)) (fsub b a)) (F.fin ((n : K) - 1))) a := by
  rw [linElem, if_neg]
  rintro ⟨h1, h2⟩
  omega

theorem linElem_interior_nan {a b : F K} {n i : ℕ} (hi : i < n - 1)
    (hab : a = F.nan ∨ b = F.nan ∨ a = F.ninf ∨ (a = F.pinf ∧ b = F.pinf)) :
    linElem a b n i = F.nan := by
  have hn2 : 2 ≤ n := by omega
  have hd0 : (0 : K) ≤ (n : K) - 1 := by
    have : (2 : K) ≤ (n : K) := by exact_mod_cast hn2
    linarith
  rw [linElem_interior a b hi]
  rcases hab with ha | hb | ha | ⟨ha, hb⟩
  · subst ha; simp
  · subst hb; simp
  · subst ha
    cases b with
    | fin lb =>
        by_cases hi0 : i = 0
        · subst hi0; simp [fsub, fadd, fneg, fmul]
        · have hpos : (0 : K) < (i : K) := by exact_mod_cast Nat.pos_of_ne_zero hi0
          simp [fsub, fadd, fneg, fmul, fdiv, ne_of_gt hpos, hpos, hd0]
    | pinf =>
        by_cases hi0 : i = 0
        · subst hi0; simp [fsub, fadd, fneg, fmul]
        · have hpos : (0 : K) < (i : K) := by exact_mod_cast Nat.pos_of_ne_zero hi0
          simp [fsub, fadd, fneg, fmul, fdiv, ne_of_gt hpos, hpos, hd0]
    | ninf => simp [fsub, fadd, fneg]
    | nan => simp
  · subst ha; subst hb; simp [fsub, fadd, fneg]

theorem linElem_fin_pinf {la : K} {n i : ℕ} (hi : i < n - 1) :
    linElem (F.fin la) F.pinf n i = if i = 0 then F.nan else F.pinf := by
  have hn2 : 2 ≤ n := by omega
  have hd0 : (0 : K) ≤ (n : K) - 1 := by
    have : (2 : K) ≤ (n : K) := by exact_mod_cast hn2
    linarith
  rw [linElem_interior _ _ hi]
  by_cases hi0 : i = 0
  · subst hi0; simp [fsub, fadd, fneg, fmul]
  · have hpos : (0 : K) < (i : K) := by exact_mod_cast Nat.pos_of_ne_zero hi0
    simp [fsub, fadd, fneg, fmul, fdiv, ne_of_gt hpos, hpos, hd0, hi0]

theorem linElem_fin_fin {la lb : K} {n i : ℕ} (hi : i < n - 1) :
    linElem (F.fin la) (F.fin lb) n i =
      F.fin ((i : K) * (lb - la) / ((n : K) - 1) + la) := by
  have hn2 : 2 ≤ n := by omega
  have hd : ((n : K) - 1) ≠ 0 := by
    have : (2 : K) ≤ (n : K) := by exact_mod_cast hn2
    intro h
    linarith
  rw [linElem_interior _ _ hi]
  rw [fsub_fin_fin, fmul_fin_fin, fdiv_fin_fin _ hd, fadd_fin_fin]

theorem logspace_noDecrease {ex : K → K} (hex : Monotone ex) (a b : F K) (n : ℕ)
    (hab : a = F.nan ∨ b = F.nan ∨ fle a b = true) :
    binsDecrease (flogspace ex a b n) = false := by
  have hmap : flogspace ex a b n =
      (List.range n).map (fun i => fexp10 ex (linElem a b n i)) := by
    simp [flogspace, flinspace, List.map_map]
  rw [hmap]
  apply binsDecrease_map_range_false
  intro i hi
  have hii : i < n - 1 := by omega
  by_cases hlast : i + 1 = n - 1
  · -- the next element is the overridden endpoint `b`
    have hb : linElem a b n (i + 1) = b := by
      rw [hlast]
      exact linElem_last a b (by omega)
    rcases hab with ha | hbn | hle
    · rw [hb, linElem_interior_nan hii (Or.inl ha)]; simp
    · rw [hb, hbn]; simp
    · cases a with
      | fin la =>
          cases b with
          | fin lb =>
              have hlab : la ≤ lb := by simpa using hle
              rw [hb, linElem_fin_fin hii]
              have hn2 : 2 ≤ n := by omega
              have hd1 : (1 : K) ≤ (n : K) - 1 := by
                have : (2 : K) ≤ (n : K) := by exact_mod_cast hn2
                linarith
              have hdpos : (0 : K) < (n : K) - 1 := by linarith
              have hiK : (i : K) ≤ (n : K) - 1 := by
                have hin : i + 1 ≤ n := by omega
                have : (i : K) + 1 ≤ (n : K) := by exact_mod_cast hin
                linarith
              have key : (i : K) * (lb - la) / ((n : K) - 1) + la ≤ lb := by
                have h1 : (i : K) * (lb - la) ≤ ((n : K) - 1) * (lb - la) := by
                  apply mul_le_mul_of_nonneg_right hiK
                  linarith
                have h2 : (i : K) * (lb - la) / ((n : K) - 1) ≤ lb - la := by
                  rw [div_le_iff₀ hdpos]
                  calc (i : K) * (lb - la) ≤ ((n : K) - 1) * (lb - la) := h1
                    _ = (lb - la) * ((n : K) - 1) := by ring
                linarith
              simp only [fexp10_fin, flt_fin_fin, decide_eq_false_iff_not, not_lt]
              exact hex key
          | pinf => rw [hb, linElem_fin_pinf hii]; by_cases hi0 : i = 0 <;> simp [hi0, flt]
          | ninf => simp [fle] at hle
          | nan => rw [hb]; simp
      | pinf =>
          have hbp : b = F.pinf := by
            cases b <;> simp [fle] at hle <;> rfl
          rw [hb, linElem_interior_nan hii (Or.inr (Or.inr (Or.inr ⟨rfl, hbp⟩)))]
          simp
      | ninf =>
          rw [hb, linElem_interior_nan hii (Or.inr (Or.inr (Or.inl rfl)))]
          simp
      | nan =>
          rw [hb, linElem_interior_nan hii (Or.inl rfl)]
          simp
  · -- both elements are interior
    have hii2 : i + 1 < n - 1 := by omega
    rcases hab with ha | hbn | hle
    · rw [linElem_interior_nan hii (Or.inl ha)]; simp
    · rw [linElem_interior_nan hii (Or.inr (Or.inl hbn))]; simp
    · cases a with
      | fin la =>
          cases b with
          | fin lb =>
              have hlab : la ≤ lb := by simpa using hle
              rw [linElem_fin_fin hii, linElem_fin_fin hii2]
              have hn2 : 2 ≤ n := by omega
              have hdpos : (0 : K) < (n : K) - 1 := by
                have : (2 : K) ≤ (n : K) := by exact_mod_cast hn2
                linarith
              have key : (i : K) * (lb - la) / ((n : K) - 1) + la ≤
                  ((i : K) + 1) * (lb - la) / ((n : K) - 1) + la := by
                have h1 : (i : K) * (lb - la) ≤ ((i : K) + 1) * (lb - la) := by
                  apply mul_le_mul_of_nonneg_right _ (by linarith)
                  linarith
                have h2 : (i : K) * (lb - la) / ((n : K) - 1) ≤
                    ((i : K) + 1) * (lb - la) / ((n : K) - 1) := by
                  rw [div_le_div_iff hdpos hdpos]
                  nlinarith [h1]
                linarith
              simp only [fexp10_fin, flt_fin_fin, decide_eq_false_iff_not, not_lt,
                Nat.cast_add, Nat.cast_one]
              exact hex key
          | pinf =>
              rw [linElem_fin_pinf hii, linElem_fin_pinf hii2]
              by_cases hi0 : i = 0 <;> simp [hi0, flt]
          | ninf => simp [fle] at hle
          | nan => rw [linElem_interior_nan hii (Or.inr (Or.inl rfl))]; simp
      | pinf =>
          have hbp : b = F.pinf := by
            cases b <;> simp [fle] at hle <;> rfl
          rw [linElem_interior_nan hii (Or.inr (Or.inr (Or.inr ⟨rfl, hbp⟩)))]
          simp
      | ninf =>
          rw [linElem_interior_nan hii (Or.inr (Or.inr (Or.inl rfl)))]
          simp
      | nan =>
          rw [linElem_interior_nan hii (Or.inl rfl)]
          simp

end BinLemmas

section StatsLemmas

variable {K : Type} [LinearOrderedField K]

open F

theorem mapM_ok {α β : Type} {l : List α} {f : α → Except String β} {g : α → β}
    (h : ∀ x ∈ l, f x = Except.ok (g x)) : l.mapM f = Except.ok (l.map g) := by
  induction l with
  | nil => rfl
  | cons x xs ih =>
      rw [List.mapM_cons, h x (List.mem_cons_self x xs),
        ih (fun y hy => h y (List.mem_cons_of_mem x hy))]
      rfl

theorem psd_stats_step_ok (lg : K → K) (H : List (List (F K))) (ym : List (F K))
    {ix : ℕ} {row : List (F K)} (hrow : H[ix]? = some row)
    (hr1 : row.length = ym.length) (hr2 : fsum row ≠ F.fin 0) :
    psd_stats_step H (ym.map (flog10 lg)) ix =
      Except.ok (rowMean lg ym row, rowVar lg ym row) := by
  have hl1 : (ym.map (flog10 lg)).length = row.length := by simp [hr1]
  have havg1 : np_average (ym.map (flog10 lg)) row = Except.ok (rowMean lg ym row) := by
    rw [np_average, if_neg (by simp [hl1]), if_neg hr2]
    rfl
  have hl2 : ((ym.map (flog10 lg)).map (fun y =>
      fmul (fsub y (rowMean lg ym row)) (fsub y (rowMean lg ym row)))).length = row.length := by
    simp [hr1]
  have havg2 : np_average ((ym.map (flog10 lg)).map (fun y =>
      fmul (fsub y (rowMean lg ym row)) (fsub y (rowMean lg ym row)))) row =
      Except.ok (rowVar lg ym row) := by
    rw [np_average, if_neg (by rw [hl2]; simp), if_neg hr2]
    rfl
  unfold psd_stats_step
  rw [hrow]
  show (do
    let m ← np_average (ym.map (flog10 lg)) row
    let v ← np_average ((ym.map (flog10 lg)).map (fun y =>
      fmul (fsub y m) (fsub y m))) row
    pure (m, v) : Except String (F K × F K)) = _
  rw [havg1]
  show (do
    let v ← np_average ((ym.map (flog10 lg)).map (fun y =>
      fmul (fsub y (rowMean lg ym row)) (fsub y (rowMean lg ym row)))) row
    pure (rowMean lg ym row, v) : Except String (F K × F K)) = _
  rw [havg2]
  rfl

theorem psd_stats_rows_ok (lg ex : K → K) (H : List (List (F K))) (xm ym : List (F K))
    (h : ∀ ix, ix < xm.length →
      ∃ row, H[ix]? = some row ∧ row.length = ym.length ∧ fsum row ≠ F.fin 0) :
    psd_stats lg ex H xm ym = Except.ok (xm,
      (List.range xm.length).map (fun ix => fexp10 ex (rowMean lg ym (H.getD ix []))),
      (List.range xm.length).map (fun ix => rowVar lg ym (H.getD ix []))) := by
  have hstep : ∀ ix ∈ List.range xm.length,
      psd_stats_step H (ym.map (flog10 lg)) ix =
        Except.ok ((fun ix => (rowMean lg ym (H.getD ix []), rowVar lg ym (H.getD ix []))) ix) := by
    intro ix hix
    rw [List.mem_range] at hix
    obtain ⟨row, hrow, hr1, hr2⟩ := h ix hix
    have hgd : H.getD ix [] = row := by
      rw [List.getD_eq_getElem?_getD, hrow]
      rfl
    show psd_stats_step H (ym.map (flog10 lg)) ix =
      Except.ok (rowMean lg ym (H.getD ix []), rowVar lg ym (H.getD ix []))
    rw [hgd]
    exact psd_stats_step_ok lg H ym hrow hr1 hr2
  unfold psd_stats
  rw [mapM_ok hstep]
  show Except.ok _ = _
  refine congrArg Except.ok (congrArg (fun z => (xm, z)) ?_)
  refine congrArg₂ Prod.mk ?_ ?_ <;> simp [List.map_map, Function.comp]

end StatsLemmas

/-- C7: every format identifier outside the recognized set
{"optodas", "onyx"} makes `extract_metadata` fail immediately with the
unrecognized-machine error (the spec's `UnsupportedFormatError`). -/
theorem extract_metadata_unrecognized {K : Type} [LinearOrderedField K]
    (h5file : H5File K) (machine_name : String)
    (h1 : machine_name ≠ "optodas") (h2 : machine_name ≠ "onyx") :
    extract_metadata h5file machine_name = Except.error "Machine name not recognized" := by
  rw [extract_metadata, if_neg h1, if_neg h2]

/-- Witness for C7 at the concrete unrecognized identifier "csv". -/
theorem extract_metadata_unrecognized_witness :
    ("csv" ≠ "optodas") ∧ ("csv" ≠ "onyx") ∧
      extract_metadata (K := ℚ) ⟨⟨0, 0, 0, 0, "", 0, 0⟩, ⟨0, [], 0, 0, "", 0⟩⟩ "csv" =
        Except.error "Machine name not recognized" :=
  ⟨by decide, by decide,
    extract_metadata_unrecognized _ _ (by decide) (by decide)⟩

section WeightedLemmas

variable {K : Type} [LinearOrderedField K]

open F

theorem map_flog10_fin (lg : K → K) (qym : List K) (hpos : ∀ y ∈ qym, 0 < y) :
    (qym.map F.fin).map (flog10 lg) = (qym.map lg).map F.fin := by
  induction qym with
  | nil => rfl
  | cons y ys ih =>
      simp only [List.map_cons, List.cons.injEq]
      exact ⟨flog10_fin_pos lg (hpos y (List.mem_cons_self y ys)),
        ih (fun z hz => hpos z (List.mem_cons_of_mem y hz))⟩

theorem rowMean_fin (lg : K → K) (qym qrow : List K) (hpos : ∀ y ∈ qym, 0 < y)
    (hsum : qrow.sum ≠ 0) :
    rowMean lg (qym.map F.fin) (qrow.map F.fin) = F.fin (specMean qrow (qym.map lg)) := by
  rw [rowMean, map_flog10_fin lg qym hpos, zipWith_fmul_map_fin, fsum_map_fin,
    fsum_map_fin, fdiv_fin_fin _ hsum, specMean, specWeightedAvg]
  rw [List.zipWith_comm_of_comm _ mul_comm]

theorem rowVar_fin (lg : K → K) (qym qrow : List K) (hpos : ∀ y ∈ qym, 0 < y)
    (hsum : qrow.sum ≠ 0) :
    rowVar lg (qym.map F.fin) (qrow.map F.fin) = F.fin (specVar qrow (qym.map lg)) := by
  have hm := rowMean_fin lg qym qrow hpos hsum
  rw [rowVar, hm, map_flog10_fin lg qym hpos]
  have hsq : ((qym.map lg).map F.fin).map (fun y =>
      fmul (fsub y (F.fin (specMean qrow (qym.map lg))))
        (fsub y (F.fin (specMean qrow (qym.map lg))))) =
      ((qym.map lg).map (fun z => (z - specMean qrow (qym.map lg)) ^ 2)).map F.fin := by
    simp only [List.map_map]
    apply List.map_congr_left
    intro z hz
    simp [Function.comp, sq]
  rw [hsq, zipWith_fmul_map_fin, fsum_map_fin, fsum_map_fin, fdiv_fin_fin _ hsum,
    specVar, specWeightedAvg, specMean]
  rw [List.zipWith_comm_of_comm _ mul_comm]

end WeightedLemmas

/-- C2 counterexample: a histogram row whose weights sum to exactly zero
does not get a NaN sentinel; `np.average` raises `ZeroDivisionError`, so
`psd_stats` raises instead of returning aligned arrays. -/
theorem psd_stats_zero_weight_raises :
    fsum [F.fin (0 : ℚ)] = F.fin 0 ∧
      psd_stats (K := ℚ) id id [[F.fin 0]] [F.fin 1] [F.fin 10] =
        Except.error "ZeroDivisionError: Weights sum to zero, can't be normalized" := by
  constructor
  · decide
  · decide

/-- C2 (amended): for every histogram whose rows (over the indices
`psd_stats` visits) have a weight sum different from the float zero — in
particular the all-`nan` rows that `ppsd` produces for zero-count frequency
bins — `psd_stats` does not raise: it returns arrays of length `len(xm)`,
and every frequency index whose row weight sum is `nan` gets `nan` mean and
`nan` variance.  (A row summing to exactly zero instead raises
`ZeroDivisionError`, see the counterexample.) -/
theorem psd_stats_degenerate_rows {K : Type} [LinearOrderedField K] (lg ex : K → K)
    (H : List (List (F K))) (xm ym : List (F K))
    (h : ∀ ix, ix < xm.length →
      ∃ row, H[ix]? = some row ∧ row.length = ym.length ∧ fsum row ≠ F.fin 0) :
    ∃ mnl vrl, psd_stats lg ex H xm ym = Except.ok (xm, mnl, vrl) ∧
      mnl.length = xm.length ∧ vrl.length = xm.length ∧
      ∀ ix, ix < xm.length → fsum (H.getD ix []) = F.nan →
        mnl[ix]? = some F.nan ∧ vrl[ix]? = some F.nan := by
  refine ⟨_, _, psd_stats_rows_ok lg ex H xm ym h, by simp, by simp, ?_⟩
  intro ix hix hnan
  have hnan2 : fsum (H[ix]?.getD []) = F.nan := by
    rw [← List.getD_eq_getElem?_getD]
    exact hnan
  constructor
  · rw [List.getElem?_map, List.getElem?_range hix]
    have hmean : rowMean lg ym (H[ix]?.getD []) = F.nan := by
      rw [rowMean, hnan2]
      simp
    simp [hmean]
  · rw [List.getElem?_map, List.getElem?_range hix]
    have hvar : rowVar lg ym (H[ix]?.getD []) = F.nan := by
      rw [rowVar, hnan2]
      simp
    simp [hvar]

/-- Witness for C2 (amended) at a one-row histogram whose row is all `nan`
(the degenerate-row shape `ppsd` actually emits). -/
theorem psd_stats_degenerate_rows_witness :
    ∃ mnl vrl, psd_stats (K := ℚ) id id [[F.nan]] [F.fin 1] [F.fin 10] =
        Except.ok ([F.fin 1], mnl, vrl) ∧
      mnl.length = [F.fin (1 : ℚ)].length ∧ vrl.length = [F.fin (1 : ℚ)].length ∧
      ∀ ix, ix < [F.fin (1 : ℚ)].length →
        fsum ([[F.nan]].getD ix ([] : List (F ℚ))) = F.nan →
          mnl[ix]? = some F.nan ∧ vrl[ix]? = some F.nan :=
  psd_stats_degenerate_rows id id [[F.nan]] [F.fin 1] [F.fin 10] (fun ix hix => by
    have h0 : ix = 0 := by
      simp only [List.length_cons, List.length_nil] at hix
      omega
    subst h0
    exact ⟨[F.nan], by decide, by decide, by decide⟩)

/-- C4: on a histogram with all-finite rows of nonzero weight and finite
positive power centers, `psd_stats` returns, per frequency bin `ix`, the
mean `10 ** (weighted average of log10(ym) with weights H[ix])` (power
domain) and the variance `weighted average of (log10(ym) - mean)^2` left in
the log10-power domain, exactly the spec formulas `specMean` / `specVar`. -/
theorem psd_stats_weighted_formula {K : Type} [LinearOrderedField K] (lg ex : K → K)
    (Hq : List (List K)) (xm : List (F K)) (qym : List K)
    (hpos : ∀ y ∈ qym, 0 < y)
    (hlen : xm.length ≤ Hq.length)
    (hrows : ∀ row ∈ Hq, row.length = qym.length ∧ row.sum ≠ 0) :
    psd_stats lg ex (Hq.map (List.map F.fin)) xm (qym.map F.fin) =
      Except.ok (xm,
        (List.range xm.length).map (fun ix =>
          F.fin (ex (specMean (Hq.getD ix []) (qym.map lg)))),
        (List.range xm.length).map (fun ix =>
          F.fin (specVar (Hq.getD ix []) (qym.map lg)))) := by
  have h : ∀ ix, ix < xm.length →
      ∃ row, (Hq.map (List.map F.fin))[ix]? = some row ∧
        row.length = (qym.map F.fin).length ∧ fsum row ≠ F.fin 0 := by
    intro ix hix
    have hix' : ix < Hq.length := lt_of_lt_of_le hix hlen
    obtain ⟨qrow, hq⟩ : ∃ qrow, Hq[ix]? = some qrow := by
      rw [List.getElem?_eq_getElem hix']
      exact ⟨_, rfl⟩
    have hmem : qrow ∈ Hq := List.getElem?_mem hq
    refine ⟨qrow.map F.fin, ?_, ?_, ?_⟩
    · rw [List.getElem?_map, hq]
      rfl
    · simp [(hrows qrow hmem).1]
    · rw [fsum_map_fin]
      intro hcon
      exact (hrows qrow hmem).2 (by simpa using hcon)
  rw [psd_stats_rows_ok lg ex _ xm _ h]
  refine congrArg Except.ok (congrArg (fun z => (xm, z)) ?_)
  refine congrArg₂ Prod.mk ?_ ?_
  · apply List.map_congr_left
    intro ix hmemr
    rw [List.mem_range] at hmemr
    have hix' : ix < Hq.length := lt_of_lt_of_le hmemr hlen
    obtain ⟨qrow, hq⟩ : ∃ qrow, Hq[ix]? = some qrow := by
      rw [List.getElem?_eq_getElem hix']
      exact ⟨_, rfl⟩
    have hmem : qrow ∈ Hq := List.getElem?_mem hq
    have hgd : Hq.getD ix [] = qrow := by
      rw [List.getD_eq_getElem?_getD, hq]
      rfl
    have hgd2 : (Hq.map (List.map F.fin)).getD ix [] = qrow.map F.fin := by
      rw [List.getD_eq_getElem?_getD, List.getElem?_map, hq]
      rfl
    rw [hgd, hgd2, rowMean_fin lg qym qrow hpos (hrows qrow hmem).2]
    rfl
  · apply List.map_congr_left
    intro ix hmemr
    rw [List.mem_range] at hmemr
    have hix' : ix < Hq.length := lt_of_lt_of_le hmemr hlen
    obtain ⟨qrow, hq⟩ : ∃ qrow, Hq[ix]? = some qrow := by
      rw [List.getElem?_eq_getElem hix']
      exact ⟨_, rfl⟩
    have hmem : qrow ∈ Hq := List.getElem?_mem hq
    have hgd : Hq.getD ix [] = qrow := by
      rw [List.getD_eq_getElem?_getD, hq]
      rfl
    have hgd2 : (Hq.map (List.map F.fin)).getD ix [] = qrow.map F.fin := by
      rw [List.getD_eq_getElem?_getD, List.getElem?_map, hq]
      rfl
    rw [hgd, hgd2, rowVar_fin lg qym qrow hpos (hrows qrow hmem).2]

/-- Witness for C4 at a concrete 2-bin histogram. -/
theorem psd_stats_weighted_formula_witness :
    psd_stats (K := ℚ) id id ([[1, 1], [0, 2]].map (List.map F.fin))
        [F.fin 5, F.fin 7] ([2, 8].map F.fin) =
      Except.ok ([F.fin 5, F.fin 7],
        (List.range [F.fin (5 : ℚ), F.fin 7].length).map (fun ix =>
          F.fin (id (specMean ([[(1 : ℚ), 1], [0, 2]].getD ix []) ([(2 : ℚ), 8].map id)))),
        (List.range [F.fin (5 : ℚ), F.fin 7].length).map (fun ix =>
          F.fin (specVar ([[(1 : ℚ), 1], [0, 2]].getD ix []) ([(2 : ℚ), 8].map id)))) :=
  psd_stats_weighted_formula id id [[1, 1], [0, 2]] [F.fin 5, F.fin 7] [2, 8]
    (by decide) (by decide) (by decide)

/-- C10: `ppsd` mutates its input in place.  The buffer the caller passed
holds `demean data` after the call (the `data -= np.mean(...)` of line 88
writes through the slice view), and whenever some channel has a finite
nonzero mean the buffer no longer equals the original data. -/
theorem ppsd_mutates_input {K : Type} [LinearOrderedField K] (lg ex : K → K)
    (dt : List (List (F K)) → List (List (F K)))
    (pg : List (List (F K)) → F K → List (F K) × List (List (F K)))
    (data : List (List (F K))) (fs fmin fmax : F K)
    (i : ℕ) (qs : List K)
    (hrow : data[i]? = some (qs.map F.fin)) (hsum : qs.sum ≠ 0) :
    (ppsd lg ex dt pg data fs fmin fmax).1 = demean data ∧
      (ppsd lg ex dt pg data fs fmin fmax).1 ≠ data := by
  refine ⟨rfl, ?_⟩
  intro hEq
  have hd : demean data = data := hEq
  obtain ⟨q0, qrest, hq⟩ : ∃ q0 qrest, qs = q0 :: qrest := by
    cases qs with
    | nil => exact (hsum (by simp)).elim
    | cons q0 qrest => exact ⟨q0, qrest, rfl⟩
  subst hq
  have hlen0 : (((q0 :: qrest).map F.fin).length : K) ≠ 0 := by
    rw [List.length_map, List.length_cons]
    exact_mod_cast Nat.succ_ne_zero qrest.length
  have hmean : F.fdiv (fsum ((q0 :: qrest).map F.fin))
      (F.fin ((((q0 :: qrest).map F.fin)).length : K)) =
      F.fin ((q0 :: qrest).sum / ((((q0 :: qrest).map F.fin)).length : K)) := by
    rw [fsum_map_fin, fdiv_fin_fin _ hlen0]
  have hrow' : (demean data)[i]? = some (((q0 :: qrest).map F.fin).map (fun v =>
      F.fsub v (F.fdiv (fsum ((q0 :: qrest).map F.fin))
        (F.fin ((((q0 :: qrest).map F.fin)).length : K))))) := by
    rw [demean, List.getElem?_map, hrow]
    rfl
  rw [hd, hrow] at hrow'
  have hlist := Option.some.inj hrow'
  rw [hmean] at hlist
  simp only [List.map_cons, List.cons.injEq, fsub_fin_fin, F.fin.injEq] at hlist
  have h1 := hlist.1
  simp only [List.length_cons, List.length_map] at h1 hlen0
  have hzero : (q0 :: qrest).sum / ((qrest.length + 1 : ℕ) : K) = 0 := by linarith
  rcases div_eq_zero_iff.mp hzero with h | h
  · exact hsum h
  · exact hlen0 h

/-- Witness for C10: a one-channel, one-sample array with value 2 is
demeaned to 0, so the caller's buffer changes. -/
theorem ppsd_mutates_input_witness :
    (ppsd (K := ℚ) id id id (fun d _ => ([], d)) [[F.fin 2]] (F.fin 1) (F.fin 1)
        (F.fin 2)).1 = demean [[F.fin 2]] ∧
      (ppsd (K := ℚ) id id id (fun d _ => ([], d)) [[F.fin 2]] (F.fin 1) (F.fin 1)
        (F.fin 2)).1 ≠ [[F.fin 2]] :=
  ppsd_mutates_input id id id (fun d _ => ([], d)) [[F.fin 2]] (F.fin 1) (F.fin 1)
    (F.fin 2) 0 [2] (by decide) (by decide)

/-- C8: the Probability Density Builder is deterministic — equal inputs
give equal (bit-identical) results, both at the `ppsd` level and at the
builder level — and the underlying 2-D binning is order-independent: any
permutation of the (frequency, power) sample pairs yields the same count
grid. -/
theorem ppsd_deterministic {K : Type} [LinearOrderedField K] :
    (∀ (lg ex : K → K) (dt : List (List (F K)) → List (List (F K)))
        (pg : List (List (F K)) → F K → List (F K) × List (List (F K)))
        (d1 d2 : List (List (F K))) (fs1 fs2 m1 m2 M1 M2 : F K),
        d1 = d2 → fs1 = fs2 → m1 = m2 → M1 = M2 →
          ppsd lg ex dt pg d1 fs1 m1 M1 = ppsd lg ex dt pg d2 fs2 m2 M2) ∧
      (∀ (f1 f2 : List (F K)) (s1 s2 : List (List (F K))) (m1 m2 M1 M2 : F K)
          (lg ex : K → K), f1 = f2 → s1 = s2 → m1 = m2 → M1 = M2 →
          pdf_builder lg ex f1 s1 m1 M1 = pdf_builder lg ex f2 s2 m2 M2) ∧
      (∀ (xe ye : List (F K)) (p1 p2 : List (F K × F K)), p1.Perm p2 →
          histCounts xe ye p1 = histCounts xe ye p2) := by
  refine ⟨?_, ?_, ?_⟩
  · rintro lg ex dt pg d1 d2 fs1 fs2 m1 m2 M1 M2 rfl rfl rfl rfl
    rfl
  · rintro f1 f2 s1 s2 m1 m2 M1 M2 lg ex rfl rfl rfl rfl
    rfl
  · intro xe ye p1 p2 hperm
    have hidx := hperm.filterMap (fun s =>
      (binIndex xe s.1).bind (fun i => (binIndex ye s.2).map (fun j => (i, j))))
    simp only [histCounts]
    apply List.map_congr_left
    intro i _
    apply List.map_congr_left
    intro j _
    simp only [List.count]
    exact hidx.countP_eq _

/-- Witness for C8: identical concrete builder calls agree, and a swapped
pair of samples yields the same count grid. -/
theorem ppsd_deterministic_witness :
    pdf_builder (K := ℚ) id id [F.fin 1] [[F.fin 1]] (F.fin 1) (F.fin 2) =
        pdf_builder (K := ℚ) id id [F.fin 1] [[F.fin 1]] (F.fin 1) (F.fin 2) ∧
      histCounts (K := ℚ) [F.fin 0, F.fin 1, F.fin 2] [F.fin 0, F.fin 1, F.fin 2]
          [(F.fin 0, F.fin 0), (F.fin 1, F.fin 1)] =
        histCounts (K := ℚ) [F.fin 0, F.fin 1, F.fin 2] [F.fin 0, F.fin 1, F.fin 2]
          [(F.fin 1, F.fin 1), (F.fin 0, F.fin 0)] :=
  ⟨(ppsd_deterministic (K := ℚ)).2.1 _ _ _ _ _ _ _ _ _ _ rfl rfl rfl rfl,
    (ppsd_deterministic (K := ℚ)).2.2 _ _ _ _
      (List.Perm.swap (F.fin 1, F.fin 1) (F.fin 0, F.fin 0) [])⟩

/-- C9: the Assembler concatenates the per-file arrays in filename-sorted
order.  The result equals the concatenation of `read` over the sorted,
sliced file list; it is invariant under the order the directory listing
delivers the names in (so read-completion or listing order is irrelevant);
and with per-file arrays of `N` rows each, the output has `N` rows whose
`r`-th row is the in-sorted-order concatenation of the blocks' `r`-th rows
(three `(N, 10)` blocks give an `(N, 30)` matrix). -/
theorem assemble_filename_sorted {K : Type} [LinearOrderedField K] :
    (∀ (read : String → List (List (F K))) (files : List String) (s n : ℕ),
        assemble read files s n =
          np_concatenate1 ((((sortedFiles files).drop s).take n).map read)) ∧
      (∀ (read : String → List (List (F K))) (files files' : List String) (s n : ℕ),
          files.Perm files' → assemble read files s n = assemble read files' s n) ∧
      (∀ (read : String → List (List (F K))) (files : List String) (s n N : ℕ),
          (((sortedFiles files).drop s).take n).map read ≠ [] →
          (∀ bl ∈ (((sortedFiles files).drop s).take n).map read, bl.length = N) →
          ∃ M, assemble read files s n = Except.ok M ∧ M.length = N ∧
            ∀ r, r < N → M[r]? =
              some ((((((sortedFiles files).drop s).take n).map read).map
                (fun bl => bl.getD r [])).flatten)) := by
  refine ⟨fun _ _ _ _ => rfl, ?_, ?_⟩
  · intro read files files' s n hperm
    haveI : IsTotal String (fun a b => a ≤ b) := ⟨fun a b => le_total a b⟩
    haveI : IsTrans String (fun a b => a ≤ b) := ⟨fun a b c => le_trans⟩
    haveI : IsAntisymm String (fun a b => a ≤ b) := ⟨fun a b => le_antisymm⟩
    have hsort : sortedFiles files = sortedFiles files' :=
      List.eq_of_perm_of_sorted
        ((List.perm_insertionSort _ files).trans
          (hperm.trans (List.perm_insertionSort _ files').symm))
        (List.sorted_insertionSort _ files) (List.sorted_insertionSort _ files')
    rw [assemble, assemble, hsort]
  · intro read files s n N hne hlen
    cases hbl : (((sortedFiles files).drop s).take n).map read with
    | nil => exact absurd hbl hne
    | cons b bs =>
        rw [hbl] at hlen
        have hb : b.length = N := hlen b (List.mem_cons_self b bs)
        have hall : bs.all (fun x => x.length == b.length) = true := by
          rw [List.all_eq_true]
          intro x hx
          have := hlen x (List.mem_cons_of_mem b hx)
          simp [this, hb]
        have hres : assemble read files s n = Except.ok ((List.range b.length).map
            (fun r => ((b :: bs).map (fun bl => bl.getD r [])).flatten)) := by
          rw [assemble, hbl, np_concatenate1, if_pos hall]
        refine ⟨_, hres, by simp [hb], ?_⟩
        intro r hr
        rw [List.getElem?_map, List.getElem?_range (show r < b.length by omega)]
        rfl

/-- Witness for C9: two files listed out of order are read in sorted
order; listing order does not matter; one-row blocks give a one-row
matrix whose row is the concatenation of the per-file rows. -/
theorem assemble_filename_sorted_witness :
    (assemble (K := ℚ) (fun _ => [[F.fin 1]]) ["b", "a"] 0 2 =
        np_concatenate1 ((((sortedFiles ["b", "a"]).drop 0).take 2).map
          (fun _ => [[F.fin (1 : ℚ)]]))) ∧
      (assemble (K := ℚ) (fun _ => [[F.fin 1]]) ["b", "a"] 0 2 =
        assemble (fun _ => [[F.fin 1]]) ["a", "b"] 0 2) ∧
      (∃ M, assemble (K := ℚ) (fun _ => [[F.fin 1]]) ["b", "a"] 0 2 =
          Except.ok M ∧ M.length = 1 ∧
          ∀ r, r < 1 → M[r]? =
            some ((((((sortedFiles ["b", "a"]).drop 0).take 2).map
              (fun _ => [[F.fin (1 : ℚ)]])).map (fun bl => bl.getD r [])).flatten)) :=
  ⟨(assemble_filename_sorted (K := ℚ)).1 _ _ _ _,
    (assemble_filename_sorted (K := ℚ)).2.1 _ _ _ _ _ (List.Perm.swap "a" "b" []),
    (assemble_filename_sorted (K := ℚ)).2.2 _ _ _ _ 1
      (by
        intro h
        have hc := congrArg List.length h
        rw [List.length_map, List.length_take, List.length_drop, sortedFiles,
          List.length_insertionSort] at hc
        simp at hc)
      (by
        intro bl hbl
        obtain ⟨x, _, hx⟩ := List.mem_map.mp hbl
        rw [← hx]
        rfl)⟩

section NanMinMaxLemmas

variable {K : Type} [LinearOrderedField K]

open F

theorem fminb_cases (a b : F K) : fminb a b = a ∨ fminb a b = b := by
  rw [fminb]
  split
  · exact Or.inr rfl
  · exact Or.inl rfl

theorem fmaxb_cases (a b : F K) : fmaxb a b = a ∨ fmaxb a b = b := by
  rw [fmaxb]
  split
  · exact Or.inr rfl
  · exact Or.inl rfl

theorem fminb_ne_nan {a b : F K} (ha : a ≠ F.nan) (hb : b ≠ F.nan) :
    fminb a b ≠ F.nan := by
  rcases fminb_cases a b with h | h <;> rw [h] <;> assumption

theorem fmaxb_ne_nan {a b : F K} (ha : a ≠ F.nan) (hb : b ≠ F.nan) :
    fmaxb a b ≠ F.nan := by
  rcases fmaxb_cases a b with h | h <;> rw [h] <;> assumption

theorem fle_refl {a : F K} (ha : a ≠ F.nan) : fle a a = true := by
  cases a with
  | fin x => simp [fle]
  | pinf => rfl
  | ninf => rfl
  | nan => exact absurd rfl ha

theorem fle_total {a b : F K} (ha : a ≠ F.nan) (hb : b ≠ F.nan) :
    fle a b = true ∨ fle b a = true := by
  cases a with
  | nan => exact absurd rfl ha
  | fin x =>
      cases b with
      | nan => exact absurd rfl hb
      | fin y =>
          rcases le_total x y with h | h
          · exact Or.inl (by simp [fle, h])
          · exact Or.inr (by simp [fle, h])
      | pinf => exact Or.inl rfl
      | ninf => exact Or.inr rfl
  | pinf =>
      cases b with
      | nan => exact absurd rfl hb
      | fin y => exact Or.inr rfl
      | pinf => exact Or.inl rfl
      | ninf => exact Or.inr rfl
  | ninf =>
      cases b with
      | nan => exact absurd rfl hb
      | fin y => exact Or.inl rfl
      | pinf => exact Or.inl rfl
      | ninf => exact Or.inl rfl

theorem fminb_le_fmaxb_step {a b y : F K} (ha : a ≠ F.nan) (hb : b ≠ F.nan)
    (hy : y ≠ F.nan) (hab : fle a b = true) :
    fle (fminb a y) (fmaxb b y) = true := by
  rw [fminb, fmaxb]
  by_cases h1 : fle y a = true
  · by_cases h2 : fle b y = true
    · simp only [h1, if_true, h2]
      exact fle_refl hy
    · simp only [h1, if_true, if_neg h2]
      rcases fle_total hy hb with h | h
      · exact h
      · exact absurd h h2
  · by_cases h2 : fle b y = true
    · simp only [if_neg h1, h2, if_true]
      rcases fle_total ha hy with h | h
      · exact h
      · exact absurd h h1
    · simp only [if_neg h1, if_neg h2]
      exact hab

theorem foldl_fminb_ne_nan {xs : List (F K)} {a : F K} (ha : a ≠ F.nan)
    (hxs : ∀ x ∈ xs, x ≠ F.nan) : xs.foldl fminb a ≠ F.nan := by
  induction xs generalizing a with
  | nil => exact ha
  | cons y ys ih =>
      exact ih (fminb_ne_nan ha (hxs y (List.mem_cons_self y ys)))
        (fun x hx => hxs x (List.mem_cons_of_mem y hx))

theorem foldl_fmaxb_ne_nan {xs : List (F K)} {a : F K} (ha : a ≠ F.nan)
    (hxs : ∀ x ∈ xs, x ≠ F.nan) : xs.foldl fmaxb a ≠ F.nan := by
  induction xs generalizing a with
  | nil => exact ha
  | cons y ys ih =>
      exact ih (fmaxb_ne_nan ha (hxs y (List.mem_cons_self y ys)))
        (fun x hx => hxs x (List.mem_cons_of_mem y hx))

theorem foldl_fminb_le_fmaxb {xs : List (F K)} {a b : F K} (ha : a ≠ F.nan)
    (hb : b ≠ F.nan) (hxs : ∀ x ∈ xs, x ≠ F.nan) (hab : fle a b = true) :
    fle (xs.foldl fminb a) (xs.foldl fmaxb b) = true := by
  induction xs generalizing a b with
  | nil => exact hab
  | cons y ys ih =>
      have hy : y ≠ F.nan := hxs y (List.mem_cons_self y ys)
      exact ih (fminb_ne_nan ha hy) (fmaxb_ne_nan hb hy)
        (fun x hx => hxs x (List.mem_cons_of_mem y hx))
        (fminb_le_fmaxb_step ha hb hy hab)

theorem mem_filter_not_nan {l : List (F K)} {v : F K}
    (hv : v ∈ l.filter (fun v => !v.isNan)) : v ≠ F.nan := by
  intro hvn
  subst hvn
  have := (List.mem_filter.mp hv).2
  simp [F.isNan] at this

theorem fnanmin_nan_or_le (l : List (F K)) :
    fnanmin l = F.nan ∨ (fnanmin l ≠ F.nan ∧ fnanmax l ≠ F.nan ∧
      fle (fnanmin l) (fnanmax l) = true) := by
  rw [fnanmin, fnanmax]
  cases hf : l.filter (fun v => !v.isNan) with
  | nil => exact Or.inl rfl
  | cons x xs =>
      right
      have hx : x ≠ F.nan := mem_filter_not_nan (hf ▸ List.mem_cons_self x xs)
      have hxs : ∀ y ∈ xs, y ≠ F.nan := fun y hy =>
        mem_filter_not_nan (hf ▸ List.mem_cons_of_mem x hy)
      exact ⟨foldl_fminb_ne_nan hx hxs, foldl_fmaxb_ne_nan hx hxs,
        foldl_fminb_le_fmaxb hx hx hxs (fle_refl hx)⟩

theorem flog10_fle_transfer {lg : K → K} (hlg : Monotone lg) {A B : F K}
    (hA : A ≠ F.nan) (hB : B ≠ F.nan) (h : fle A B = true) :
    flog10 lg A = F.nan ∨ flog10 lg B = F.nan ∨
      fle (flog10 lg A) (flog10 lg B) = true := by
  cases A with
  | nan => exact absurd rfl hA
  | ninf => exact Or.inl rfl
  | pinf =>
      cases B with
      | nan => exact absurd rfl hB
      | pinf => exact Or.inr (Or.inr rfl)
      | ninf => simp [fle] at h
      | fin y => simp [fle] at h
  | fin x =>
      by_cases hx0 : 0 < x
      · cases B with
        | nan => exact absurd rfl hB
        | pinf =>
            refine Or.inr (Or.inr ?_)
            rw [flog10_fin_pos lg hx0]
            rfl
        | ninf => simp [fle] at h
        | fin y =>
            have hxy : x ≤ y := by simpa [fle] using h
            refine Or.inr (Or.inr ?_)
            rw [flog10_fin_pos lg hx0, flog10_fin_pos lg (lt_of_lt_of_le hx0 hxy)]
            simp [fle, hlg hxy]
      · rcases lt_or_eq_of_le (not_lt.mp hx0) with hneg | hzero
        · refine Or.inl ?_
          rw [flog10]
          rw [if_neg (by linarith), if_neg (by linarith)]
        · cases B with
          | nan => exact absurd rfl hB
          | pinf => exact Or.inr (Or.inr (by rw [hzero, flog10_fin_zero]; rfl))
          | ninf => simp [fle] at h
          | fin y =>
              by_cases hy0 : 0 < y
              · refine Or.inr (Or.inr ?_)
                rw [hzero, flog10_fin_zero, flog10_fin_pos lg hy0]
                rfl
              · rcases lt_or_eq_of_le (not_lt.mp hy0) with hyneg | hyzero
                · refine Or.inr (Or.inl ?_)
                  rw [flog10, if_neg (by linarith), if_neg (by linarith)]
                · refine Or.inr (Or.inr ?_)
                  rw [hzero, hyzero, flog10_fin_zero]
                  rfl

theorem ppsdYbins_noDecrease {lg ex : K → K} (hlg : Monotone lg)
    (hex : Monotone ex) (spec : List (List (F K))) :
    binsDecrease (ppsdYbins lg ex spec) = false := by
  rw [ppsdYbins]
  apply logspace_noDecrease hex
  rcases fnanmin_nan_or_le spec.flatten with h | ⟨h1, h2, h3⟩
  · left
    rw [h]
    rfl
  · exact flog10_fle_transfer hlg h1 h2 h3

theorem ppsdXbins_noDecrease {lg ex : K → K} (hlg : Monotone lg)
    (hex : Monotone ex) {qmin qmax : K} (h0 : 0 < qmin) (h1 : qmin ≤ qmax) :
    binsDecrease (ppsdXbins lg ex (F.fin qmin) (F.fin qmax)) = false := by
  rw [ppsdXbins]
  apply logspace_noDecrease hex
  refine Or.inr (Or.inr ?_)
  rw [flog10_fin_pos lg h0, flog10_fin_pos lg (lt_of_lt_of_le h0 h1)]
  simp [fle, hlg h1]

theorem pdf_builder_ok_of (lg ex : K → K) (freq : List (F K))
    (spec : List (List (F K))) (fmin fmax : F K)
    (hne : spec.flatten ≠ [])
    (hx : binsDecrease (ppsdXbins lg ex fmin fmax) = false)
    (hy : binsDecrease (ppsdYbins lg ex spec) = false) :
    pdf_builder lg ex freq spec fmin fmax = Except.ok
      ⟨(ppsdCounts lg ex freq spec fmin fmax).map
          (fun crow => normalizeRow (crow.map (fun (c : ℕ) => F.fin (c : K)))),
        centers (ppsdXbins lg ex fmin fmax), centers (ppsdYbins lg ex spec)⟩ := by
  rw [pdf_builder, if_neg (by simpa [List.isEmpty_iff] using hne), histogram2d, hx, hy]
  rfl

theorem pdf_builder_error_of (lg ex : K → K) (freq : List (F K))
    (spec : List (List (F K))) (fmin fmax : F K)
    (hne : spec.flatten ≠ [])
    (hx : binsDecrease (ppsdXbins lg ex fmin fmax) = true) :
    pdf_builder lg ex freq spec fmin fmax =
      Except.error "ValueError: bins must be monotonically increasing" := by
  rw [pdf_builder, if_neg (by simpa [List.isEmpty_iff] using hne), histogram2d, hx]
  rfl

end NanMinMaxLemmas

/-- C3 counterexample: a call with `fmin = fmax` (so `fmin >= fmax`) does
not fail at all — `np.logspace` produces constant edges, which pass
numpy's monotonicity test, and `ppsd` returns a histogram. -/
theorem ppsd_equal_range_no_error :
    F.fle (F.fin (1 : ℚ)) (F.fin (1 : ℚ)) = true ∧
      exceptOk (pdf_builder (K := ℚ) id id [F.fin 1] [[F.fin 1]]
        (F.fin 1) (F.fin 1)) = true := by
  constructor
  · decide
  · decide

/-- C3 (amended): only `fmin > fmax` (with positive finite bounds) makes
the Probability Density Builder fail, and the failure is numpy's
`ValueError` for decreasing bin edges raised inside `np.histogram2d`;
`fmin = fmax` does not raise, and entirely non-finite (all-`nan`) power
samples do not raise either (they yield a degenerate all-`nan` histogram
instead of an `InvalidRangeError`). -/
theorem ppsd_range_errors {K : Type} [LinearOrderedField K] :
    (∀ (lg ex : K → K) (freq : List (F K)) (spec : List (List (F K))) (qmin qmax : K),
        StrictMono lg → StrictMono ex → 0 < qmax → qmax < qmin →
        spec.flatten ≠ [] →
        pdf_builder lg ex freq spec (F.fin qmin) (F.fin qmax) =
          Except.error "ValueError: bins must be monotonically increasing") ∧
      (∀ (lg ex : K → K) (freq : List (F K)) (spec : List (List (F K))) (q : K),
          Monotone lg → Monotone ex → 0 < q → spec.flatten ≠ [] →
          exceptOk (pdf_builder lg ex freq spec (F.fin q) (F.fin q)) = true) ∧
      (∀ (lg ex : K → K) (freq : List (F K)) (spec : List (List (F K))) (qmin qmax : K),
          Monotone lg → Monotone ex → 0 < qmin → qmin ≤ qmax →
          spec.flatten ≠ [] → (∀ v ∈ spec.flatten, v = F.nan) →
          exceptOk (pdf_builder lg ex freq spec (F.fin qmin) (F.fin qmax)) = true) := by
  refine ⟨?_, ?_, ?_⟩
  · intro lg ex freq spec qmin qmax hlg hex h0 h2 hne
    have h0min : 0 < qmin := lt_trans h0 h2
    have hmap : ppsdXbins lg ex (F.fin qmin) (F.fin qmax) =
        (List.range 100).map (fun i =>
          F.fexp10 ex (linElem (F.fin (lg qmin)) (F.fin (lg qmax)) 100 i)) := by
      rw [ppsdXbins, flogspace, flinspace, List.map_map,
        flog10_fin_pos lg h0min, flog10_fin_pos lg h0]
      rfl
    have he0 : (ppsdXbins lg ex (F.fin qmin) (F.fin qmax))[0]? =
        some (F.fexp10 ex (linElem (F.fin (lg qmin)) (F.fin (lg qmax)) 100 0)) := by
      rw [hmap, List.getElem?_map, List.getElem?_range (by norm_num)]
      rfl
    have he1 : (ppsdXbins lg ex (F.fin qmin) (F.fin qmax))[0 + 1]? =
        some (F.fexp10 ex (linElem (F.fin (lg qmin)) (F.fin (lg qmax)) 100 1)) := by
      rw [hmap, List.getElem?_map, List.getElem?_range (by norm_num)]
      rfl
    have hlt : F.flt (F.fexp10 ex (linElem (F.fin (lg qmin)) (F.fin (lg qmax)) 100 1))
        (F.fexp10 ex (linElem (F.fin (lg qmin)) (F.fin (lg qmax)) 100 0)) = true := by
      rw [linElem_fin_fin (show (0 : ℕ) < 100 - 1 by norm_num),
        linElem_fin_fin (show (1 : ℕ) < 100 - 1 by norm_num)]
      simp only [fexp10_fin, flt_fin_fin, decide_eq_true_eq]
      apply hex
      have hD : lg qmax - lg qmin < 0 := sub_neg.mpr (hlg h2)
      have h99 : (0 : K) < ((100 : ℕ) : K) - 1 := by norm_num
      have hq : (lg qmax - lg qmin) / (((100 : ℕ) : K) - 1) < 0 :=
        div_neg_of_neg_of_pos hD h99
      rw [Nat.cast_zero, Nat.cast_one]
      simp only [one_mul, zero_mul, zero_div, zero_add]
      linarith
    exact pdf_builder_error_of lg ex freq spec _ _ hne
      (binsDecrease_true_of he0 he1 hlt)
  · intro lg ex freq spec q hlg hex h0 hne
    rw [pdf_builder_ok_of lg ex freq spec _ _ hne
      (ppsdXbins_noDecrease hlg hex h0 le_rfl) (ppsdYbins_noDecrease hlg hex spec)]
    rfl
  · intro lg ex freq spec qmin qmax hlg hex h0 h1 hne hnan
    rw [pdf_builder_ok_of lg ex freq spec _ _ hne
      (ppsdXbins_noDecrease hlg hex h0 h1) (ppsdYbins_noDecrease hlg hex spec)]
    rfl

/-- Witness for C3 (amended) at concrete calls: reversed bounds raise the
ValueError, equal bounds succeed, and an all-`nan` power matrix succeeds. -/
theorem ppsd_range_errors_witness :
    (pdf_builder (K := ℚ) id id [F.fin 1] [[F.fin 1]] (F.fin 2) (F.fin 1) =
        Except.error "ValueError: bins must be monotonically increasing") ∧
      exceptOk (pdf_builder (K := ℚ) id id [F.fin 1] [[F.fin 1]]
        (F.fin 1) (F.fin 1)) = true ∧
      exceptOk (pdf_builder (K := ℚ) id id [F.fin 1] [[F.nan]]
        (F.fin 1) (F.fin 2)) = true :=
  ⟨(ppsd_range_errors (K := ℚ)).1 id id [F.fin 1] [[F.fin 1]] 2 1
      (fun _ _ h => h) (fun _ _ h => h) (by norm_num) (by norm_num) (by decide),
    (ppsd_range_errors (K := ℚ)).2.1 id id [F.fin 1] [[F.fin 1]] 1
      (fun _ _ h => h) (fun _ _ h => h) (by norm_num) (by decide),
    (ppsd_range_errors (K := ℚ)).2.2 id id [F.fin 1] [[F.nan]] 1 2
      (fun _ _ h => h) (fun _ _ h => h) (by norm_num) (by norm_num) (by decide)
      (by decide)⟩

section EdgeValueLemmas

variable {K : Type} [LinearOrderedField K]

open F

theorem fminb_fin_fin (a y : K) : fminb (F.fin a) (F.fin y) = F.fin (min a y) := by
  rw [fminb, fle_fin_fin]
  by_cases h : y ≤ a
  · simp [h, min_eq_right h]
  · simp [h, min_eq_left (le_of_not_le h)]

theorem fmaxb_fin_fin (a y : K) : fmaxb (F.fin a) (F.fin y) = F.fin (max a y) := by
  rw [fmaxb, fle_fin_fin]
  by_cases h : a ≤ y
  · simp [h, max_eq_right h]
  · simp [h, max_eq_left (le_of_not_le h)]

theorem foldl_fminb_map_fin (l : List K) (a : K) :
    (l.map F.fin).foldl fminb (F.fin a) = F.fin (l.foldl min a) := by
  induction l generalizing a with
  | nil => rfl
  | cons y ys ih => simp [fminb_fin_fin, ih]

theorem foldl_fmaxb_map_fin (l : List K) (a : K) :
    (l.map F.fin).foldl fmaxb (F.fin a) = F.fin (l.foldl max a) := by
  induction l generalizing a with
  | nil => rfl
  | cons y ys ih => simp [fmaxb_fin_fin, ih]

theorem foldl_min_mem (l : List K) (a : K) : l.foldl min a ∈ a :: l := by
  induction l generalizing a with
  | nil => simp
  | cons y ys ih =>
      rw [List.foldl_cons]
      rcases List.mem_cons.mp (ih (min a y)) with h | h
      · rw [h]
        rcases min_choice a y with hm | hm <;> rw [hm]
        · exact List.mem_cons_self _ _
        · exact List.mem_cons_of_mem _ (List.mem_cons_self _ _)
      · exact List.mem_cons_of_mem _ (List.mem_cons_of_mem _ h)

theorem foldl_max_mem (l : List K) (a : K) : l.foldl max a ∈ a :: l := by
  induction l generalizing a with
  | nil => simp
  | cons y ys ih =>
      rw [List.foldl_cons]
      rcases List.mem_cons.mp (ih (max a y)) with h | h
      · rw [h]
        rcases max_choice a y with hm | hm <;> rw [hm]
        · exact List.mem_cons_self _ _
        · exact List.mem_cons_of_mem _ (List.mem_cons_self _ _)
      · exact List.mem_cons_of_mem _ (List.mem_cons_of_mem _ h)

theorem foldl_min_le (l : List K) (a : K) : ∀ q ∈ a :: l, l.foldl min a ≤ q := by
  induction l generalizing a with
  | nil =>
      intro q hq
      simp only [List.mem_cons, List.not_mem_nil, or_false] at hq
      subst hq
      simp
  | cons y ys ih =>
      intro q hq
      rw [List.foldl_cons]
      rcases List.mem_cons.mp hq with h | h
      · rw [h]
        exact le_trans (ih (min a y) (min a y) (List.mem_cons_self _ _)) (min_le_left _ _)
      · rcases List.mem_cons.mp h with h2 | h2
        · rw [h2]
          exact le_trans (ih (min a y) (min a y) (List.mem_cons_self _ _)) (min_le_right _ _)
        · exact ih (min a y) q (List.mem_cons_of_mem _ h2)

theorem foldl_max_ge (l : List K) (a : K) : ∀ q ∈ a :: l, q ≤ l.foldl max a := by
  induction l generalizing a with
  | nil =>
      intro q hq
      simp only [List.mem_cons, List.not_mem_nil, or_false] at hq
      subst hq
      simp
  | cons y ys ih =>
      intro q hq
      rw [List.foldl_cons]
      rcases List.mem_cons.mp hq with h | h
      · rw [h]
        exact le_trans (le_max_left _ _) (ih (max a y) (max a y) (List.mem_cons_self _ _))
      · rcases List.mem_cons.mp h with h2 | h2
        · rw [h2]
          exact le_trans (le_max_right _ _) (ih (max a y) (max a y) (List.mem_cons_self _ _))
        · exact ih (max a y) q (List.mem_cons_of_mem _ h2)

theorem filter_map_fin (qs : List K) :
    (qs.map F.fin).filter (fun v => !v.isNan) = qs.map F.fin := by
  apply List.filter_eq_self.mpr
  intro v hv
  obtain ⟨q, _, hq⟩ := List.mem_map.mp hv
  rw [← hq]
  rfl

theorem fnanmin_map_fin {qs : List K} (hqs : qs ≠ []) :
    ∃ m, fnanmin (qs.map F.fin) = F.fin m ∧ m ∈ qs ∧ ∀ q ∈ qs, m ≤ q := by
  cases qs with
  | nil => exact absurd rfl hqs
  | cons q0 qrest =>
      refine ⟨qrest.foldl min q0, ?_, foldl_min_mem qrest q0, foldl_min_le qrest q0⟩
      rw [fnanmin, filter_map_fin]
      simp only [List.map_cons]
      exact foldl_fminb_map_fin qrest q0

theorem fnanmax_map_fin {qs : List K} (hqs : qs ≠ []) :
    ∃ M, fnanmax (qs.map F.fin) = F.fin M ∧ M ∈ qs ∧ ∀ q ∈ qs, q ≤ M := by
  cases qs with
  | nil => exact absurd rfl hqs
  | cons q0 qrest =>
      refine ⟨qrest.foldl max q0, ?_, foldl_max_mem qrest q0, foldl_max_ge qrest q0⟩
      rw [fnanmax, filter_map_fin]
      simp only [List.map_cons]
      exact foldl_fmaxb_map_fin qrest q0

theorem flogspace_length (ex : K → K) (a b : F K) (n : ℕ) :
    (flogspace ex a b n).length = n := by
  simp [flogspace, flinspace]

theorem flogspace_head (ex : K → K) (a b : F K) {n : ℕ} (hn : 0 < n) :
    (flogspace ex a b n).head? = some (fexp10 ex (linElem a b n 0)) := by
  rw [flogspace, flinspace, List.map_map, List.head?_eq_getElem?,
    List.getElem?_map, List.getElem?_range hn]
  rfl

theorem flogspace_getLast (ex : K → K) (a b : F K) {n : ℕ} (hn : 1 < n) :
    (flogspace ex a b n).getLast? = some (fexp10 ex b) := by
  rw [List.getLast?_eq_getElem?, flogspace_length, flogspace, flinspace,
    List.map_map, List.getElem?_map, List.getElem?_range (by omega : n - 1 < n)]
  show some (fexp10 ex (linElem a b n (n - 1))) = _
  rw [linElem_last a b hn]

theorem linElem_zero {la lb : K} {n : ℕ} (hn : 2 ≤ n) :
    linElem (F.fin la) (F.fin lb) n 0 = F.fin la := by
  rw [linElem_fin_fin (by omega : 0 < n - 1)]
  congr 1
  rw [Nat.cast_zero]
  ring

end EdgeValueLemmas

section HistDims

variable {K : Type} [LinearOrderedField K]

theorem histCounts_length (xe ye : List (F K)) (samples : List (F K × F K)) :
    (histCounts xe ye samples).length = xe.length - 1 := by
  simp only [histCounts]
  rw [List.length_map, List.length_range]

theorem histCounts_row_length (xe ye : List (F K)) (samples : List (F K × F K)) :
    ∀ row ∈ histCounts xe ye samples, row.length = ye.length - 1 := by
  intro row hrow
  simp only [histCounts, List.mem_map] at hrow
  obtain ⟨i, _, hrow2⟩ := hrow
  rw [← hrow2, List.length_map, List.length_range]

end HistDims

/-- C5 counterexample: with a power sample equal to `0` among the observed
samples (minimum finite positive sample `4`), the power-bin edges do not
start at `4`: `np.nanmin` picks `0`, `log10(0) = -inf`, and the first edge
degenerates to `nan` (numpy: `0 * inf = nan` inside `linspace`), so the
claimed lower edge is wrong while the builder still succeeds. -/
theorem ppsd_power_edges_zero_sample :
    (0 : ℚ) < 1 ∧ (1 : ℚ) < 100 ∧
      exceptOk (pdf_builder (K := ℚ) id id [F.fin 1, F.fin 1]
        [[F.fin 0, F.fin 4]] (F.fin 1) (F.fin 100)) = true ∧
      (ppsdYbins (K := ℚ) id id [[F.fin 0, F.fin 4]]).head? = some F.nan ∧
      F.nan ≠ F.fin (4 : ℚ) := by
  refine ⟨by norm_num, by norm_num, by decide, by decide, by decide⟩

/-- C5 (amended): for `0 < fmin < fmax` and *positive finite* observed
power samples, the frequency axis has exactly 100 log-spaced edges running
from `fmin` to `fmax` inclusive (99 bins) and the power axis has exactly
200 log-spaced edges from the minimum to the maximum observed power
(199 bins), and the returned histogram is 99 x 199 with matching center
axes.  When a zero (or negative, or infinite) power sample is observed the
power edges degenerate instead (see the counterexample).  `lg`/`ex` model
`np.log10` / `10 ** x`: monotone and mutually inverse on positives. -/
theorem ppsd_bin_edges {K : Type} [LinearOrderedField K] (lg ex : K → K)
    (freq : List (F K)) (spec : List (List (F K))) (qmin qmax : K) (qs : List K)
    (hlg : Monotone lg) (hex : Monotone ex)
    (hinv : ∀ x : K, 0 < x → ex (lg x) = x)
    (h0 : 0 < qmin) (h1 : qmin < qmax)
    (hspec : spec.flatten = qs.map F.fin) (hqs : qs ≠ [])
    (hpos : ∀ q ∈ qs, 0 < q) :
    (ppsdXbins lg ex (F.fin qmin) (F.fin qmax)).length = 100 ∧
      (ppsdXbins lg ex (F.fin qmin) (F.fin qmax)).head? = some (F.fin qmin) ∧
      (ppsdXbins lg ex (F.fin qmin) (F.fin qmax)).getLast? = some (F.fin qmax) ∧
      (ppsdYbins lg ex spec).length = 200 ∧
      (∃ m, (ppsdYbins lg ex spec).head? = some (F.fin m) ∧ m ∈ qs ∧
        ∀ q ∈ qs, m ≤ q) ∧
      (∃ M, (ppsdYbins lg ex spec).getLast? = some (F.fin M) ∧ M ∈ qs ∧
        ∀ q ∈ qs, q ≤ M) ∧
      ∃ r, pdf_builder lg ex freq spec (F.fin qmin) (F.fin qmax) = Except.ok r ∧
        r.H.length = 99 ∧ (∀ row ∈ r.H, row.length = 199) ∧
        r.xm.length = 99 ∧ r.ym.length = 199 := by
  have hposmax : 0 < qmax := lt_trans h0 h1
  have hla : F.flog10 lg (F.fin qmin) = F.fin (lg qmin) := flog10_fin_pos lg h0
  have hlb : F.flog10 lg (F.fin qmax) = F.fin (lg qmax) := flog10_fin_pos lg hposmax
  obtain ⟨m, hm, hmmem, hmle⟩ := fnanmin_map_fin (K := K) hqs
  obtain ⟨M, hM, hMmem, hMge⟩ := fnanmax_map_fin (K := K) hqs
  have hya : F.flog10 lg (fnanmin spec.flatten) = F.fin (lg m) := by
    rw [hspec, hm, flog10_fin_pos lg (hpos m hmmem)]
  have hyb : F.flog10 lg (fnanmax spec.flatten) = F.fin (lg M) := by
    rw [hspec, hM, flog10_fin_pos lg (hpos M hMmem)]
  refine ⟨?_, ?_, ?_, ?_, ?_, ?_, ?_⟩
  · rw [ppsdXbins, flogspace_length]
  · rw [ppsdXbins, hla, hlb, flogspace_head ex _ _ (by norm_num),
      linElem_zero (by norm_num)]
    simp [hinv qmin h0]
  · rw [ppsdXbins, hla, hlb, flogspace_getLast ex _ _ (by norm_num)]
    simp [hinv qmax hposmax]
  · rw [ppsdYbins, flogspace_length]
  · refine ⟨m, ?_, hmmem, hmle⟩
    rw [ppsdYbins, hya, hyb, flogspace_head ex _ _ (by norm_num),
      linElem_zero (by norm_num)]
    simp [hinv m (hpos m hmmem)]
  · refine ⟨M, ?_, hMmem, hMge⟩
    rw [ppsdYbins, hya, hyb, flogspace_getLast ex _ _ (by norm_num)]
    simp [hinv M (hpos M hMmem)]
  · have hne : spec.flatten ≠ [] := by
      rw [hspec]
      intro hcon
      exact hqs (List.map_eq_nil_iff.mp hcon)
    refine ⟨_, pdf_builder_ok_of lg ex freq spec _ _ hne
      (ppsdXbins_noDecrease hlg hex h0 (le_of_lt h1))
      (ppsdYbins_noDecrease hlg hex spec), ?_, ?_, ?_, ?_⟩
    · rw [List.length_map, ppsdCounts, histCounts_length, ppsdXbins, flogspace_length]
    · intro row hrow
      simp only [List.mem_map] at hrow
      obtain ⟨crow, hcrow, hrow2⟩ := hrow
      rw [← hrow2, normalizeRow, List.length_map, List.length_map]
      have := histCounts_row_length (ppsdXbins lg ex (F.fin qmin) (F.fin qmax))
        (ppsdYbins lg ex spec) (ppsdSamples freq spec) crow hcrow
      rw [this, ppsdYbins, flogspace_length]
    · simp [centers, ppsdXbins, flogspace_length, List.length_zip, List.length_tail]
    · simp [centers, ppsdYbins, flogspace_length, List.length_zip, List.length_tail]

/-- Witness for C5 (amended) at `fmin = 1 < fmax = 2` with positive power
samples `[1, 2]`. -/
theorem ppsd_bin_edges_witness :
    (ppsdXbins (K := ℚ) id id (F.fin 1) (F.fin 2)).length = 100 ∧
      (ppsdXbins (K := ℚ) id id (F.fin 1) (F.fin 2)).head? = some (F.fin 1) ∧
      (ppsdXbins (K := ℚ) id id (F.fin 1) (F.fin 2)).getLast? = some (F.fin 2) ∧
      (ppsdYbins (K := ℚ) id id [[F.fin 1, F.fin 2]]).length = 200 ∧
      (∃ m, (ppsdYbins (K := ℚ) id id [[F.fin 1, F.fin 2]]).head? = some (F.fin m) ∧
        m ∈ [(1 : ℚ), 2] ∧ ∀ q ∈ [(1 : ℚ), 2], m ≤ q) ∧
      (∃ M, (ppsdYbins (K := ℚ) id id [[F.fin 1, F.fin 2]]).getLast? = some (F.fin M) ∧
        M ∈ [(1 : ℚ), 2] ∧ ∀ q ∈ [(1 : ℚ), 2], q ≤ M) ∧
      ∃ r, pdf_builder (K := ℚ) id id [F.fin 1, F.fin 1] [[F.fin 1, F.fin 2]]
          (F.fin 1) (F.fin 2) = Except.ok r ∧
        r.H.length = 99 ∧ (∀ row ∈ r.H, row.length = 199) ∧
        r.xm.length = 99 ∧ r.ym.length = 199 :=
  ppsd_bin_edges id id [F.fin 1, F.fin 1] [[F.fin 1, F.fin 2]] 1 2 [1, 2]
    (fun _ _ h => h) (fun _ _ h => h) (fun _ _ => rfl)
    (by norm_num) (by norm_num) (by decide) (by decide) (by decide)

section NanChannelLemmas

variable {K : Type} [LinearOrderedField K]

open F

theorem binIndexAux_nan (rest : List (F K)) (lo : F K) (i : ℕ) :
    binIndexAux lo rest F.nan i = none := by
  induction rest generalizing lo i with
  | nil => rfl
  | cons hi rest' ih =>
      cases rest' with
      | nil => simp [binIndexAux]
      | cons hi2 rest2 => simp [binIndexAux, ih]

theorem binIndex_nan (edges : List (F K)) : binIndex edges F.nan = none := by
  cases edges with
  | nil => rfl
  | cons e rest => exact binIndexAux_nan rest e 0

theorem filterMap_zip_nan_row (xe ye freq row : List (F K))
    (hnan : ∀ v ∈ row, v = F.nan) :
    (freq.zip row).filterMap (fun s =>
      (binIndex xe s.1).bind (fun i => (binIndex ye s.2).map (fun j => (i, j)))) = [] := by
  apply List.filterMap_eq_nil_iff.mpr
  intro s hs
  have hv := (List.of_mem_zip hs).2
  rw [hnan s.2 hv, binIndex_nan]
  cases binIndex xe s.1 <;> rfl

theorem ppsdSamples_eq_flatten (freq : List (F K)) :
    ∀ (spec : List (List (F K))), (∀ r ∈ spec, r.length = freq.length) →
      ppsdSamples freq spec = (spec.map (fun r => freq.zip r)).flatten := by
  intro spec
  induction spec with
  | nil => intro _; rfl
  | cons r rest ih =>
      intro hrect
      show ((List.replicate (r :: rest).length freq).flatten).zip (r :: rest).flatten = _
      rw [List.length_cons, List.replicate_succ, List.flatten_cons, List.flatten_cons,
        List.map_cons, List.flatten_cons]
      rw [List.zip_append ((hrect r (List.mem_cons_self r rest)).symm)]
      congr 1
      exact ih (fun x hx => hrect x (List.mem_cons_of_mem r hx))

theorem ppsdSamples_def (freq : List (F K)) (spec : List (List (F K))) :
    (ppsdFreqTiled freq spec).zip spec.flatten = ppsdSamples freq spec := rfl

theorem histogram2d_eq_of (xs1 ys1 xs2 ys2 xe ye : List (F K))
    (h : histCounts xe ye (xs1.zip ys1) = histCounts xe ye (xs2.zip ys2)) :
    histogram2d xs1 ys1 xe ye = histogram2d xs2 ys2 xe ye := by
  rw [histogram2d, histogram2d, h]

end NanChannelLemmas

/-- C6: a channel whose power samples are all `nan` is invisible to the
Probability Density Builder: the call behaves *identically* (same result,
raising in neither or both) to the same call with that channel removed —
`nan` samples fall in no bin and `np.nanmin`/`np.nanmax` skip them — and
in particular when the reduced call returns a histogram, the full call
returns the same histogram without throwing. -/
theorem pdf_builder_nan_channel {K : Type} [LinearOrderedField K] (lg ex : K → K)
    (freq : List (F K)) (spec : List (List (F K))) (c : ℕ) (row : List (F K))
    (fmin fmax : F K)
    (hc : spec[c]? = some row) (hnan : ∀ v ∈ row, v = F.nan)
    (hrect : ∀ r ∈ spec, r.length = freq.length)
    (hrest : (spec.eraseIdx c).flatten ≠ []) :
    pdf_builder lg ex freq spec fmin fmax =
        pdf_builder lg ex freq (spec.eraseIdx c) fmin fmax ∧
      ∀ r, pdf_builder lg ex freq (spec.eraseIdx c) fmin fmax = Except.ok r →
        pdf_builder lg ex freq spec fmin fmax = Except.ok r := by
  obtain ⟨hcl, hval⟩ := List.getElem?_eq_some_iff.mp hc
  have hdrop : spec.drop c = row :: spec.drop (c + 1) := by
    rw [List.drop_eq_getElem_cons hcl, hval]
  have hdecomp : spec = spec.take c ++ row :: spec.drop (c + 1) := by
    nth_rewrite 1 [← List.take_append_drop c spec]
    rw [hdrop]
  have herase : spec.eraseIdx c = spec.take c ++ spec.drop (c + 1) :=
    List.eraseIdx_eq_take_drop_succ spec c
  have hrowfilter : row.filter (fun v => !v.isNan) = [] :=
    List.filter_eq_nil_iff.mpr (fun v hv => by rw [hnan v hv]; simp)
  have hfl : spec.flatten =
      (spec.take c).flatten ++ (row ++ (spec.drop (c + 1)).flatten) := by
    nth_rewrite 1 [hdecomp]
    rw [List.flatten_append, List.flatten_cons]
  have hfe : (spec.eraseIdx c).flatten =
      (spec.take c).flatten ++ (spec.drop (c + 1)).flatten := by
    rw [herase, List.flatten_append]
  have hfilter : spec.flatten.filter (fun v => !v.isNan) =
      (spec.eraseIdx c).flatten.filter (fun v => !v.isNan) := by
    rw [hfl, hfe, List.filter_append, List.filter_append, List.filter_append,
      hrowfilter]
    simp
  have hmin : fnanmin spec.flatten = fnanmin ((spec.eraseIdx c).flatten) := by
    rw [fnanmin, fnanmin, hfilter]
  have hmax : fnanmax spec.flatten = fnanmax ((spec.eraseIdx c).flatten) := by
    rw [fnanmax, fnanmax, hfilter]
  have hyeq : ppsdYbins lg ex spec = ppsdYbins lg ex (spec.eraseIdx c) := by
    rw [ppsdYbins, ppsdYbins, hmin, hmax]
  have hne1 : spec.flatten ≠ [] := by
    intro hcon
    rw [hfl] at hcon
    obtain ⟨h1, h2⟩ := List.append_eq_nil.mp hcon
    obtain ⟨h3, h4⟩ := List.append_eq_nil.mp h2
    exact hrest (by rw [hfe, h1, h4]; rfl)
  have hrecte : ∀ r ∈ spec.eraseIdx c, r.length = freq.length :=
    fun r hr => hrect r ((List.eraseIdx_sublist spec c).mem hr)
  have hidx : ∀ (xb yb : List (F K)),
      (ppsdSamples freq spec).filterMap (fun s =>
        (binIndex xb s.1).bind (fun i => (binIndex yb s.2).map (fun j => (i, j)))) =
      (ppsdSamples freq (spec.eraseIdx c)).filterMap (fun s =>
        (binIndex xb s.1).bind (fun i => (binIndex yb s.2).map (fun j => (i, j)))) := by
    intro xb yb
    rw [ppsdSamples_eq_flatten freq spec hrect,
      ppsdSamples_eq_flatten freq (spec.eraseIdx c) hrecte,
      List.filterMap_flatten, List.filterMap_flatten, List.map_map, List.map_map]
    nth_rewrite 1 [hdecomp]
    rw [herase, List.map_append, List.map_append, List.flatten_append,
      List.flatten_append, List.map_cons, List.flatten_cons]
    rw [show (List.filterMap (fun s =>
        (binIndex xb s.1).bind (fun i => (binIndex yb s.2).map (fun j => (i, j)))) ∘
        fun r => freq.zip r) row =
      (freq.zip row).filterMap (fun s =>
        (binIndex xb s.1).bind (fun i => (binIndex yb s.2).map (fun j => (i, j))))
      from rfl]
    rw [filterMap_zip_nan_row xb yb freq row hnan]
    rfl
  have hcounts : histCounts (ppsdXbins lg ex fmin fmax) (ppsdYbins lg ex (spec.eraseIdx c))
      ((ppsdFreqTiled freq spec).zip spec.flatten) =
      histCounts (ppsdXbins lg ex fmin fmax) (ppsdYbins lg ex (spec.eraseIdx c))
      ((ppsdFreqTiled freq (spec.eraseIdx c)).zip (spec.eraseIdx c).flatten) := by
    simp only [histCounts]
    rw [ppsdSamples_def, ppsdSamples_def,
      hidx (ppsdXbins lg ex fmin fmax) (ppsdYbins lg ex (spec.eraseIdx c))]
  have heq : pdf_builder lg ex freq spec fmin fmax =
      pdf_builder lg ex freq (spec.eraseIdx c) fmin fmax := by
    rw [pdf_builder, pdf_builder, if_neg (by simpa [List.isEmpty_iff] using hne1),
      if_neg (by simpa [List.isEmpty_iff] using hrest), hyeq,
      histogram2d_eq_of _ _ _ _ _ _ hcounts]
  exact ⟨heq, fun r h => heq.trans h⟩

/-- Witness for C6: removing the all-`nan` second channel leaves the
builder output unchanged. -/
theorem pdf_builder_nan_channel_witness :
    (pdf_builder (K := ℚ) id id [F.fin 1, F.fin 2] [[F.fin 1, F.fin 2], [F.nan, F.nan]]
        (F.fin 1) (F.fin 2) =
      pdf_builder (K := ℚ) id id [F.fin 1, F.fin 2]
        ([[F.fin 1, F.fin 2], [F.nan, F.nan]].eraseIdx 1) (F.fin 1) (F.fin 2)) ∧
      ∀ r, pdf_builder (K := ℚ) id id [F.fin 1, F.fin 2]
          ([[F.fin 1, F.fin 2], [F.nan, F.nan]].eraseIdx 1) (F.fin 1) (F.fin 2) =
          Except.ok r →
        pdf_builder (K := ℚ) id id [F.fin 1, F.fin 2]
          [[F.fin 1, F.fin 2], [F.nan, F.nan]] (F.fin 1) (F.fin 2) = Except.ok r :=
  pdf_builder_nan_channel id id [F.fin 1, F.fin 2]
    [[F.fin 1, F.fin 2], [F.nan, F.nan]] 1 [F.nan, F.nan] (F.fin 1) (F.fin 2)
    (by decide) (by decide) (by decide) (by decide)

section NormalizationLemmas

variable {K : Type} [LinearOrderedField K]

open F

theorem sum_map_div (l : List K) (S : K) :
    (l.map (fun q => q / S)).sum = l.sum / S := by
  induction l with
  | nil => simp
  | cons q rest ih => simp [ih, add_div]

theorem sum_map_cast_div (crow : List ℕ) (S : K) :
    (crow.map (fun (c : ℕ) => (c : K) / S)).sum = ((crow.sum : ℕ) : K) / S := by
  induction crow with
  | nil => simp
  | cons c rest ih =>
      rw [List.map_cons, List.sum_cons, ih, List.sum_cons]
      push_cast
      ring

theorem normalizeRow_map_fin_sum (crow : List ℕ) (hc : crow.sum ≠ 0) :
    fsum (normalizeRow (crow.map (fun (c : ℕ) => F.fin (c : K)))) = F.fin 1 := by
  have hsplit : crow.map (fun (c : ℕ) => F.fin (c : K)) =
      (crow.map (fun (c : ℕ) => (c : K))).map F.fin := by
    rw [List.map_map]
    rfl
  have hcast : (crow.map (fun (c : ℕ) => (c : K))).sum = ((crow.sum : ℕ) : K) := by
    rw [Nat.cast_list_sum]
  have hSne : ((crow.sum : ℕ) : K) ≠ 0 := Nat.cast_ne_zero.mpr hc
  have hS : fnansum (crow.map (fun (c : ℕ) => F.fin (c : K))) =
      F.fin ((crow.sum : ℕ) : K) := by
    rw [hsplit, fnansum_map_fin, hcast]
  rw [normalizeRow, hS, List.map_map]
  have hptw : crow.map ((fun v => F.fdiv v (F.fin ((crow.sum : ℕ) : K))) ∘
      (fun (c : ℕ) => F.fin (c : K))) =
      crow.map (fun (c : ℕ) => F.fin ((c : K) / ((crow.sum : ℕ) : K))) :=
    List.map_congr_left (fun c _ => fdiv_fin_fin _ hSne)
  rw [hptw]
  have hsplit2 : crow.map (fun (c : ℕ) => F.fin ((c : K) / ((crow.sum : ℕ) : K))) =
      (crow.map (fun (c : ℕ) => (c : K) / ((crow.sum : ℕ) : K))).map F.fin := by
    rw [List.map_map]
    rfl
  rw [hsplit2, fsum_map_fin, sum_map_cast_div, div_self hSne]

theorem pdf_builder_cases (lg ex : K → K) (freq : List (F K))
    (spec : List (List (F K))) (fmin fmax : F K) :
    pdf_builder lg ex freq spec fmin fmax =
        Except.error "ValueError: zero-size array to reduction operation fmin which has no identity" ∨
      pdf_builder lg ex freq spec fmin fmax =
        Except.error "ValueError: bins must be monotonically increasing" ∨
      pdf_builder lg ex freq spec fmin fmax = Except.ok
        ⟨(ppsdCounts lg ex freq spec fmin fmax).map
            (fun crow => normalizeRow (crow.map (fun (c : ℕ) => F.fin (c : K)))),
          centers (ppsdXbins lg ex fmin fmax), centers (ppsdYbins lg ex spec)⟩ := by
  rw [pdf_builder, histogram2d]
  by_cases h1 : spec.flatten.isEmpty = true
  · rw [if_pos h1]
    exact Or.inl rfl
  · rw [if_neg h1]
    by_cases h2 : (binsDecrease (ppsdXbins lg ex fmin fmax) ||
        binsDecrease (ppsdYbins lg ex spec)) = true
    · rw [if_pos h2]
      exact Or.inr (Or.inl rfl)
    · rw [if_neg h2]
      exact Or.inr (Or.inr rfl)

end NormalizationLemmas

/-- C1: every histogram the Probability Density Builder returns is
row-normalized by each row's own total count: whenever the raw count of
frequency-bin row `i` is nonzero, the returned row is that count row
divided by its total, and it sums to exactly `1` (exact in this model;
"within floating-point tolerance" in the float program).  The final
conjunct ties the builder to `ppsd`: `ppsd`'s histogram result is exactly
this builder applied to the periodogram output of the demeaned, detrended
data. -/
theorem ppsd_rows_normalized {K : Type} [LinearOrderedField K] (lg ex : K → K)
    (freq : List (F K)) (spec : List (List (F K))) (fmin fmax : F K) (i : ℕ)
    (hok : exceptOk (pdf_builder lg ex freq spec fmin fmax) = true)
    (hcount : ((ppsdCounts lg ex freq spec fmin fmax).getD i []).sum ≠ 0) :
    (∃ r, pdf_builder lg ex freq spec fmin fmax = Except.ok r ∧
      r.H[i]? = some (normalizeRow
        (((ppsdCounts lg ex freq spec fmin fmax).getD i []).map
          (fun (c : ℕ) => F.fin (c : K)))) ∧
      fsum (normalizeRow (((ppsdCounts lg ex freq spec fmin fmax).getD i []).map
        (fun (c : ℕ) => F.fin (c : K)))) = F.fin 1) ∧
      ∀ (dt : List (List (F K)) → List (List (F K)))
        (pg : List (List (F K)) → F K → List (F K) × List (List (F K)))
        (data : List (List (F K))) (fs : F K),
        (ppsd lg ex dt pg data fs fmin fmax).2 =
          pdf_builder lg ex (pg (dt (demean data)) fs).1
            (pg (dt (demean data)) fs).2 fmin fmax := by
  constructor
  · rcases pdf_builder_cases lg ex freq spec fmin fmax with h | h | h
    · rw [h] at hok
      simp [exceptOk] at hok
    · rw [h] at hok
      simp [exceptOk] at hok
    · have hi : i < (ppsdCounts lg ex freq spec fmin fmax).length := by
        by_contra hni
        apply hcount
        rw [List.getD_eq_getElem?_getD, List.getElem?_eq_none (by omega)]
        rfl
      have hrow : (ppsdCounts lg ex freq spec fmin fmax)[i]? =
          some ((ppsdCounts lg ex freq spec fmin fmax).getD i []) := by
        rw [List.getD_eq_getElem?_getD, List.getElem?_eq_getElem hi]
        rfl
      refine ⟨_, h, ?_, normalizeRow_map_fin_sum _ hcount⟩
      rw [List.getElem?_map, hrow]
      rfl
  · intro dt pg data fs
    rfl

/-- Witness for C1: one sample lands in frequency bin 0 (the other has an
out-of-range frequency), so row 0 has count 1 and its normalized row sums
to 1. -/
theorem ppsd_rows_normalized_witness :
    (∃ r, pdf_builder (K := ℚ) id id [F.fin 1, F.fin 0] [[F.fin 1, F.fin 2]]
        (F.fin 1) (F.fin 2) = Except.ok r ∧
      r.H[0]? = some (normalizeRow
        (((ppsdCounts (K := ℚ) id id [F.fin 1, F.fin 0] [[F.fin 1, F.fin 2]]
          (F.fin 1) (F.fin 2)).getD 0 []).map (fun (c : ℕ) => F.fin (c : ℚ)))) ∧
      fsum (normalizeRow (((ppsdCounts (K := ℚ) id id [F.fin 1, F.fin 0]
        [[F.fin 1, F.fin 2]] (F.fin 1) (F.fin 2)).getD 0 []).map
          (fun (c : ℕ) => F.fin (c : ℚ)))) = F.fin 1) ∧
      ∀ (dt : List (List (F ℚ)) → List (List (F ℚ)))
        (pg : List (List (F ℚ)) → F ℚ → List (F ℚ) × List (List (F ℚ)))
        (data : List (List (F ℚ))) (fs : F ℚ),
        (ppsd (K := ℚ) id id dt pg data fs (F.fin 1) (F.fin 2)).2 =
          pdf_builder id id (pg (dt (demean data)) fs).1
            (pg (dt (demean data)) fs).2 (F.fin 1) (F.fin 2) :=
  ppsd_rows_normalized id id [F.fin 1, F.fin 0] [[F.fin 1, F.fin 2]]
    (F.fin 1) (F.fin 2) 0 (by decide) (by decide)
